import Mathlib

/-!
Verification development for the GO-RAC in-memory vector database: the HNSW
index engine (`db/persistence.go`, HNSW part), the database manager
(`db/manager.go`, `db/types.go`), and the snapshot codec
(`db/persistence.go`, persistence part).

Modelling conventions, used throughout:

* Go `float32` values and arithmetic are modelled by exact rationals (`ℚ`).
  Every concrete input appearing in a witness or counterexample below is a
  small dyadic rational on which 32-bit float arithmetic is exact and all
  comparisons have wide margins, so the modelled runs coincide with the
  source's runs on those inputs.
* `math.Sqrt` has no exact rational counterpart.  Every property stated here
  observes distances only through order comparisons under one fixed metric,
  and square root is monotone, so it is modelled by the monotone stand-in
  `f32sqrt q = q`; all concrete runs use the Manhattan or Hamming metrics,
  which are sqrt-free and exact.
* Go maps are modelled as association lists with first-match lookup
  (`alookup`) and in-place update (`aset`).  The source never iterates over
  a map in the modelled operations, so map iteration order is unobservable.
* The `container/heap` min-heap (candidates) and max-heap (results) of
  `searchLayer` are modelled as lists kept sorted by distance (ascending
  resp. descending); `heap.Pop` takes the head, `(*h)[0]` peeks the head.
  Pop order among equal distances is unspecified both in the source (heap
  shape dependent) and here (insertion position); concrete runs below avoid
  distance ties.  Likewise Go's unstable `sort.Slice` is modelled by
  insertion sort.
* The random level draw `int(math.Floor(-math.Log(u) * g.mL))` in
  `HNSWGraph.Insert` is externalised as an explicit `level : ℕ` argument
  (the draw is nonnegative since `u ∈ (0,1]`).  The `mL` field's value
  `1/ln M` is irrational; the source reads it only for its sign (the scaled
  draw itself being externalised), so `NewHNSWGraph` stores the stand-in
  `1/(M-1)`, which is positive exactly when `1/ln M` is.
* Go `int` is modelled by `ℤ`; layer indices, which the source keeps
  nonnegative, by `ℕ`.  Out-of-range slice indexing, which would panic in
  Go, is modelled by defaults (`List.getD`), and is never exercised by the
  source's call paths.
* The `sync` mutexes serialise the modelled operations; this development
  gives the single-threaded semantics.  File I/O of the snapshot codec is
  modelled by an explicit file store (path-indexed association list), and
  `encoding/json` by an explicit `Json` value type; Go's float JSON
  encoding is round-trip exact, as is its rational model.
-/

/-- First-match lookup in an association list (Go map read `m[k]`). -/
def alookup {κ α : Type} [DecidableEq κ] : List (κ × α) → κ → Option α
  | [], _ => none
  | (k, v) :: rest, key => if key = k then some v else alookup rest key

/-- Update in an association list (Go map write `m[k] = v`): replace the
first binding of the key, or append a fresh binding. -/
def aset {κ α : Type} [DecidableEq κ] : List (κ × α) → κ → α → List (κ × α)
  | [], key, val => [(key, val)]
  | (k, v) :: rest, key, val =>
    if key = k then (k, val) :: rest else (k, v) :: aset rest key val

/-- JSON values (Go `encoding/json` documents); numbers carry the exact
rational modelling the encoded float. -/
inductive Json : Type
  | null : Json
  | bool : Bool → Json
  | num : ℚ → Json
  | str : String → Json
  | arr : List Json → Json
  | obj : List (String × Json) → Json

/-- Go `db.Vector`: id, float32 data array, opaque metadata blob
(`map[string]interface{}`, modelled as a stored JSON value). -/
structure Vector where
  ID : String
  Data : List ℚ
  Metadata : Json

/-- Go `config.HNSWConfig` (Dimensions, M, EfConstruction, EfSearch,
DistanceType; `DistanceType` is a named int type, kept as `ℤ`). -/
structure HNSWConfig where
  Dimensions : ℤ
  M : ℤ
  EfConstruction : ℤ
  EfSearch : ℤ
  DistanceType : ℤ
deriving DecidableEq

/-- Go `config.DatabaseConfig`. -/
structure DatabaseConfig where
  HNSW : HNSWConfig
deriving DecidableEq

/-- The `config.DistanceType*` constants. -/
def DistanceTypeEuclidean : ℤ := 0

/-- Cosine distance selector. -/
def DistanceTypeCosine : ℤ := 1

/-- Manhattan distance selector. -/
def DistanceTypeManhattan : ℤ := 2

/-- Hamming distance selector. -/
def DistanceTypeHamming : ℤ := 3

/-- Monotone stand-in for `float32(math.Sqrt(float64 x))` (see header). -/
def f32sqrt (q : ℚ) : ℚ := q

/-- `math.MaxFloat32` = (2 − 2⁻²³)·2¹²⁷, exactly. -/
def maxFloat32 : ℚ := (2 ^ 24 - 1) * 2 ^ 104

/-- Sum of squared differences, `for i := range a { diff := a[i]-b[i]; sum +=
diff*diff }`.  Go panics when `len b < len a`; callers guarantee equal
lengths, modelled by a 0 default. -/
def sumSqDiff : List ℚ → List ℚ → ℚ
  | [], _ => 0
  | x :: xs, ys => (x - ys.headD 0) * (x - ys.headD 0) + sumSqDiff xs ys.tail

/-- Go `euclideanDistance`. -/
def euclideanDistance (a b : List ℚ) : ℚ := f32sqrt (sumSqDiff a b)

/-- Dot product accumulator of `cosineDistance`. -/
def dotAcc : List ℚ → List ℚ → ℚ
  | [], _ => 0
  | x :: xs, ys => x * ys.headD 0 + dotAcc xs ys.tail

/-- Squared-norm accumulator of `cosineDistance` (norm of the first list). -/
def normAcc : List ℚ → ℚ
  | [] => 0
  | x :: xs => x * x + normAcc xs

/-- Go `cosineDistance`: 1 − clamped similarity, with the zero-vector and
zero-norm guards of the source. -/
def cosineDistance (a b : List ℚ) : ℚ :=
  let dot := dotAcc a b
  let normA := normAcc a
  let normB := normAcc (b.take a.length)
  if normA = 0 ∨ normB = 0 then 1
  else
    let sqrtNormA := f32sqrt normA
    let sqrtNormB := f32sqrt normB
    if sqrtNormA = 0 ∨ sqrtNormB = 0 then 1
    else
      let similarity := dot / (sqrtNormA * sqrtNormB)
      let similarity := if 1 < similarity then 1
        else if similarity < -1 then -1 else similarity
      1 - similarity

/-- Go `manhattanDistance`. -/
def manhattanDistance : List ℚ → List ℚ → ℚ
  | [], _ => 0
  | x :: xs, ys => |x - ys.headD 0| + manhattanDistance xs ys.tail

/-- Go `hammingDistance` (count of exact inequalities). -/
def hammingDistance : List ℚ → List ℚ → ℚ
  | [], _ => 0
  | x :: xs, ys =>
    (if x = ys.headD 0 then 0 else 1) + hammingDistance xs ys.tail

/-- Go `db.HNSWGraph` (the mutex is dropped: single-threaded semantics). -/
structure HNSWGraph where
  M : ℤ
  EfConstruction : ℤ
  EfSearch : ℤ
  MaxLayer : ℕ
  EntryPoint : String
  Layers : List (List (String × List String))
  Vectors : List (String × Vector)
  DistanceType : ℤ
  mL : ℚ

/-- Go `HNSWGraph.Distance`: dispatch on the configured metric, defaulting
to Euclidean. -/
def HNSWGraph.Distance (g : HNSWGraph) (a b : List ℚ) : ℚ :=
  if g.DistanceType = DistanceTypeEuclidean then euclideanDistance a b
  else if g.DistanceType = DistanceTypeCosine then cosineDistance a b
  else if g.DistanceType = DistanceTypeManhattan then manhattanDistance a b
  else if g.DistanceType = DistanceTypeHamming then hammingDistance a b
  else euclideanDistance a b

/-- Go `NewHNSWGraph`: defaults `m ≤ 0 ↦ 16`, `efConstruction ≤ 0 ↦ 200`,
`EfSearch := efConstruction`, one empty layer, `mL := 1/ln m` for `m > 1`
else `1` (stand-in `1/(m−1)`, see header). -/
def NewHNSWGraph (m efConstruction distanceType : ℤ) : HNSWGraph :=
  let m := if m ≤ 0 then 16 else m
  let efConstruction := if efConstruction ≤ 0 then 200 else efConstruction
  let ml : ℚ := if 1 < m then 1 / ((m : ℚ) - 1) else 1
  { M := m
    EfConstruction := efConstruction
    EfSearch := efConstruction
    MaxLayer := 0
    EntryPoint := ""
    Layers := [[]]
    Vectors := []
    DistanceType := distanceType
    mL := ml }

/-- Vector lookup `g.Vectors[id]` (Go zero value on a missing key). -/
def HNSWGraph.vecOf (g : HNSWGraph) (id : String) : Vector :=
  (alookup g.Vectors id).getD ⟨"", [], Json.null⟩

/-- The adjacency map of one layer, `g.Layers[l]`. -/
def HNSWGraph.layerMap (g : HNSWGraph) (l : ℕ) : List (String × List String) :=
  g.Layers.getD l []

/-- Neighbor list `g.Layers[l][id]` (Go nil slice on a missing key). -/
def HNSWGraph.adj (g : HNSWGraph) (l : ℕ) (id : String) : List String :=
  (alookup (g.layerMap l) id).getD []

/-- Write `g.Layers[l][id] = ns`. -/
def HNSWGraph.setAdj (g : HNSWGraph) (l : ℕ) (id : String)
    (ns : List String) : HNSWGraph :=
  { g with Layers := g.Layers.set l (aset (g.layerMap l) id ns) }

/-- Go `DistanceItem`. -/
structure DistanceItem where
  ID : String
  Distance : ℚ
deriving DecidableEq

/-- Push into the max-heap of results (list sorted by descending distance;
the head is the worst current result). -/
def pushDesc (x : DistanceItem) : List DistanceItem → List DistanceItem
  | [] => [x]
  | y :: ys => if y.Distance ≤ x.Distance then x :: y :: ys else y :: pushDesc x ys

/-- Push into the min-heap of candidates (list sorted by ascending distance;
the head is the best candidate). -/
def pushAsc (x : DistanceItem) : List DistanceItem → List DistanceItem
  | [] => [x]
  | y :: ys => if x.Distance ≤ y.Distance then x :: y :: ys else y :: pushAsc x ys

/-- Ascending sort by distance (models the unstable `sort.Slice` ascending
sort that ends `searchLayer`). -/
def sortAsc (l : List DistanceItem) : List DistanceItem :=
  l.foldr pushAsc []

/-- Distance of the worst kept result, `(*resultSet)[0].Distance`; the
source reads it only under a nonemptiness guard. -/
def worstDist : List DistanceItem → ℚ
  | [] => 0
  | x :: _ => x.Distance

/-- The ids of a result set. -/
def rsIds (rs : List DistanceItem) : List String := rs.map (·.ID)

/-- One step of the neighbor-expansion loop of `searchLayer`: for each
neighbor of the popped candidate, if unvisited mark it visited, compute its
distance and, when the result set is not full or the distance beats the
current worst, push it onto the result set (ejecting the worst when the set
overflows `ef`) and onto the candidate set.  The candidate push sits inside
the distance conditional, exactly as in the source (lines 481-505 of
`persistence.go`). -/
def expandNbrs (g : HNSWGraph) (query : List ℚ) (ef : ℤ) :
    List String → List String × List DistanceItem × List DistanceItem →
    List String × List DistanceItem × List DistanceItem
  | [], st => st
  | n :: ns, (visited, rs, cs) =>
    if n ∈ visited then expandNbrs g query ef ns (visited, rs, cs)
    else
      let visited := n :: visited
      let d := g.Distance query (g.vecOf n).Data
      if (rs.length : ℤ) < ef ∨ d < worstDist rs then
        let rs := pushDesc ⟨n, d⟩ rs
        let rs := if ef < (rs.length : ℤ) then rs.tail else rs
        expandNbrs g query ef ns (visited, rs, pushAsc ⟨n, d⟩ cs)
      else
        expandNbrs g query ef ns (visited, rs, cs)

/-- The main loop of `searchLayer`: pop the best candidate; stop early when
the result set is full and the popped distance exceeds the worst kept
distance times the 1.1 quality threshold; otherwise expand its neighbors.
Returns the final result set together with a flag that is `true` exactly
when the loop did not run to natural exhaustion of the candidate set (the
early stop fired, or the fuel — always sufficient for the source's runs —
ran out with candidates pending). -/
def searchLoop (g : HNSWGraph) (query : List ℚ) (layer : ℕ) (ef : ℤ) :
    ℕ → List String → List DistanceItem → List DistanceItem →
    List DistanceItem × Bool
  | 0, _, rs, cs => (rs, !cs.isEmpty)
  | fuel + 1, visited, rs, cs =>
    match cs with
    | [] => (rs, false)
    | current :: csRest =>
      if ef ≤ (rs.length : ℤ) ∧ worstDist rs * (11 / 10) < current.Distance then
        (rs, true)
      else
        let (visited, rs, cs) :=
          expandNbrs g query ef (g.adj layer current.ID) (visited, rs, csRest)
        searchLoop g query layer ef fuel visited rs cs

/-- Total size of a layer's adjacency lists; used to provision fuel for
`searchLoop` (each loop iteration permanently visits at least one id drawn
from these lists, so `2·size + 2` strictly dominates the iteration count). -/
def HNSWGraph.layerAdjSize (g : HNSWGraph) (l : ℕ) : ℕ :=
  (((g.layerMap l).map (·.2)).flatten).length

/-- The effective candidate width of `searchLayer`: the caller's `k`,
upgraded to `EfSearch` on layer 0 or `EfConstruction` on upper layers when
those are larger (lines 458-465 of `persistence.go`). -/
def HNSWGraph.effectiveEf (g : HNSWGraph) (k : ℤ) (layer : ℕ) : ℤ :=
  if layer = 0 ∧ k < g.EfSearch then g.EfSearch
  else if 0 < layer ∧ k < g.EfConstruction then g.EfConstruction
  else k

/-- Go `HNSWGraph.searchLayer`, instrumented with the early-stop flag: seed
the visited set and both heaps with the entry point, upgrade the candidate
width `k` to `EfSearch` (layer 0) or `EfConstruction` (upper layers) when
they are larger, run the loop, then sort the surviving results by ascending
distance and return the first `k` ids. -/
def HNSWGraph.searchLayerFlag (g : HNSWGraph) (query : List ℚ)
    (entryPoint : String) (k : ℤ) (layer : ℕ) : List String × Bool :=
  if k ≤ 0 then ([], false)
  else
    let entryPointDist := g.Distance query (g.vecOf entryPoint).Data
    let ef : ℤ := g.effectiveEf k layer
    let (rs, broke) := searchLoop g query layer ef (2 * g.layerAdjSize layer + 2)
      [entryPoint] [⟨entryPoint, entryPointDist⟩] [⟨entryPoint, entryPointDist⟩]
    (((sortAsc rs).take k.toNat).map (·.ID), broke)

/-- Go `HNSWGraph.searchLayer` (the flag projected away). -/
def HNSWGraph.searchLayer (g : HNSWGraph) (query : List ℚ)
    (entryPoint : String) (k : ℤ) (layer : ℕ) : List String :=
  (g.searchLayerFlag query entryPoint k layer).1

/-- The minimum distance from candidate `x` to any already-selected result
(inner loop of `selectNeighbors`, seeded with `math.MaxFloat32`). -/
def HNSWGraph.minDistTo (g : HNSWGraph) (x : String)
    (result : List String) : ℚ :=
  result.foldl
    (fun acc rid =>
      let d := g.Distance (g.vecOf x).Data (g.vecOf rid).Data
      if d < acc then d else acc)
    maxFloat32

/-- Index of the candidate whose minimum distance to the selected results is
largest (`maxDist := -1.0; maxIdx := 0; ...` scan of `selectNeighbors`). -/
def HNSWGraph.argmaxMinDist (g : HNSWGraph) (result : List String)
    (items : List DistanceItem) : ℕ :=
  (items.foldl
    (fun (st : ℕ × ℚ × ℕ) item =>
      let (i, maxDist, maxIdx) := st
      let minDist := g.minDistTo item.ID result
      if maxDist < minDist then (i + 1, minDist, i) else (i + 1, maxDist, maxIdx))
    (0, -1, 0)).2.2

/-- The greedy diversification loop of `selectNeighbors`: while fewer than
`m` results and candidates remain, move the candidate of maximal
minimum-distance-to-results into the results.  Fuel is the initial number of
candidates; each iteration removes exactly one. -/
def HNSWGraph.selLoop (g : HNSWGraph) (m : ℤ) :
    ℕ → List String → List DistanceItem → List String
  | 0, result, _ => result
  | fuel + 1, result, items =>
    if (result.length : ℤ) < m ∧ !items.isEmpty then
      let maxIdx := g.argmaxMinDist result items
      let chosen := (items.getD maxIdx ⟨"", 0⟩).ID
      g.selLoop m fuel (result ++ [chosen]) (items.eraseIdx maxIdx)
    else result

/-- Go `HNSWGraph.selectNeighbors`: return all candidates when at most `m`;
otherwise sort them by distance to the query, seed the result with the
nearest, and run the diversification loop. -/
def HNSWGraph.selectNeighbors (g : HNSWGraph) (query : List ℚ)
    (candidates : List String) (m : ℤ) : List String :=
  if (candidates.length : ℤ) ≤ m then candidates
  else
    let items := sortAsc (candidates.map
      (fun id => ⟨id, g.Distance query (g.vecOf id).Data⟩))
    match items with
    | [] => []
    | first :: rest => g.selLoop m rest.length [first.ID] rest

/-- Descent phase of `Insert` (`for l := g.MaxLayer; l > layer; l--`): width-1
layer search per layer, taking the best result as the next entry and keeping
the current entry when a layer yields nothing. -/
def HNSWGraph.descendInsert (g : HNSWGraph) (data : List ℚ) :
    List ℕ → String → String
  | [], entry => entry
  | l :: ls, entry =>
    let pathCandidates := g.searchLayer data entry 1 l
    g.descendInsert data ls
      (match pathCandidates with
       | [] => entry
       | p :: _ => p)

/-- Bidirectional-linking fold of `Insert` (lines 317-328): append the new
id to each chosen neighbor's list, creating the list when absent, and when a
list exceeds `M` recompute it with `selectNeighbors` against the neighbor's
own vector.  The returned flag records whether any trim fired. -/
def HNSWGraph.linkNeighbors (vid : String) (l : ℕ) :
    List String → HNSWGraph × Bool → HNSWGraph × Bool
  | [], st => st
  | n :: ns, (g, fl) =>
    let updated := g.adj l n ++ [vid]
    let g := g.setAdj l n updated
    if g.M < (updated.length : ℤ) then
      let trimmed := g.selectNeighbors (g.vecOf n).Data updated g.M
      HNSWGraph.linkNeighbors vid l ns (g.setAdj l n trimmed, true)
    else
      HNSWGraph.linkNeighbors vid l ns (g, fl)

/-- Per-layer insertion fold of `Insert` (lines 308-334), over the layer
indices `min(layer, MaxLayer), …, 0`: search the layer with width
`EfConstruction`, select at most `M` neighbors, record them for the new id,
link bidirectionally (with trims), and advance the entry point to the best
candidate found. -/
def HNSWGraph.insertAtLayers (v : Vector) :
    List ℕ → String → HNSWGraph × Bool → HNSWGraph × Bool
  | [], _, st => st
  | l :: ls, entry, (g, fl) =>
    let nearestCandidates := g.searchLayer v.Data entry g.EfConstruction l
    let neighbors := g.selectNeighbors v.Data nearestCandidates g.M
    let g := g.setAdj l v.ID neighbors
    let (g, fl) := HNSWGraph.linkNeighbors v.ID l neighbors (g, fl)
    HNSWGraph.insertAtLayers v ls
      (match nearestCandidates with
       | [] => entry
       | c :: _ => c)
      (g, fl)

/-- Errors surfaced by the HNSW index (`ErrEmptyVector`,
`ErrInvalidParameter`, and the ad-hoc duplicate-id error of `Insert`). -/
inductive GraphErr : Type
  | emptyVector : GraphErr
  | invalidParameter : GraphErr
  | duplicate : GraphErr
deriving DecidableEq

/-- Layer extension of `Insert` (`for i := len(g.Layers); i <= layer; i++`):
append empty layers until `layer` is addressable and raise `MaxLayer`. -/
def HNSWGraph.extendTo (g : HNSWGraph) (layer : ℕ) : HNSWGraph :=
  { g with MaxLayer := layer
           Layers := g.Layers ++ List.replicate (layer + 1 - g.Layers.length) [] }

/-- Go `HNSWGraph.Insert`, instrumented with a flag recording whether any
neighbor-list trim fired during linking.  The random level draw is the
`level` argument (see header); validation, the duplicate check, layer
extension, vector storage, the first-insert shortcut, the descent and the
per-layer linking follow `persistence.go` lines 255-337. -/
def HNSWGraph.InsertFlag (g : HNSWGraph) (level : ℕ) (vector : Vector) :
    Except GraphErr (HNSWGraph × Bool) :=
  if vector.Data = [] then .error .emptyVector
  else if vector.ID = "" then .error .invalidParameter
  else if (alookup g.Vectors vector.ID).isSome then .error .duplicate
  else
    let layer := if 0 < g.mL then level else 0
    let g := if g.MaxLayer < layer then g.extendTo layer else g
    let g := { g with Vectors := aset g.Vectors vector.ID vector }
    if g.EntryPoint = "" then .ok ({ g with EntryPoint := vector.ID }, false)
    else
      let entryPointForLayer := g.descendInsert vector.Data
        ((List.range' (layer + 1) (g.MaxLayer - layer)).reverse) g.EntryPoint
      .ok (HNSWGraph.insertAtLayers vector
        ((List.range (min layer g.MaxLayer + 1)).reverse)
        entryPointForLayer (g, false))

/-- Go `HNSWGraph.Insert` (the trim flag projected away). -/
def HNSWGraph.Insert (g : HNSWGraph) (level : ℕ) (vector : Vector) :
    Except GraphErr HNSWGraph :=
  (g.InsertFlag level vector).map (·.1)

/-- Descent phase of `Search` (`for l := g.MaxLayer; l > 0; l--`): width-1
layer search per layer; an empty result breaks the whole descent. -/
def HNSWGraph.descendSearch (g : HNSWGraph) (query : List ℚ) :
    List ℕ → String → String
  | [], entry => entry
  | l :: ls, entry =>
    match g.searchLayer query entry 1 l with
    | [] => entry
    | p :: _ => g.descendSearch query ls p

/-- Go `HNSWGraph.Search`, instrumented with the layer-0 early-stop flag:
validate, return empty on an empty index, descend to layer 1, run the
layer-0 search with candidate width `g.EfSearch`, trim to `k`, and resolve
ids to stored vectors. -/
def HNSWGraph.SearchFlag (g : HNSWGraph) (query : List ℚ) (k : ℤ) :
    Except GraphErr (List Vector × Bool) :=
  if query = [] then .error .emptyVector
  else if k ≤ 0 then .error .invalidParameter
  else if g.EntryPoint = "" then .ok ([], false)
  else
    let currentEntryPoint := g.descendSearch query
      ((List.range' 1 g.MaxLayer).reverse) g.EntryPoint
    let (finalCandidates, broke) :=
      g.searchLayerFlag query currentEntryPoint g.EfSearch 0
    let finalCandidates :=
      if k < (finalCandidates.length : ℤ) then finalCandidates.take k.toNat
      else finalCandidates
    .ok (finalCandidates.map (fun id => g.vecOf id), broke)

/-- Go `HNSWGraph.Search` (the flag projected away). -/
def HNSWGraph.Search (g : HNSWGraph) (query : List ℚ) (k : ℤ) :
    Except GraphErr (List Vector) :=
  (g.SearchFlag query k).map (·.1)

/-- Run a sequence of (level draw, vector) insertions, accumulating the trim
flag; failed insertions leave the graph unchanged, as in the source. -/
def runInsertsFlag (g : HNSWGraph) :
    List (ℕ × Vector) → HNSWGraph × Bool
  | [] => (g, false)
  | (level, v) :: rest =>
    match g.InsertFlag level v with
    | .ok (g2, fl) =>
      let (g3, fl2) := runInsertsFlag g2 rest
      (g3, fl || fl2)
    | .error _ => runInsertsFlag g rest

/-- The graph after a sequence of insertions. -/
def runInserts (g : HNSWGraph) (s : List (ℕ × Vector)) : HNSWGraph :=
  (runInsertsFlag g s).1

/-- Errors of the manager/persistence layer (`db/errors.go`:
`ErrDatabaseExists`, `ErrDatabaseNotFound`, `ErrVectorNotFound`,
`ErrInvalidDimensions`; `ioFailure` stands for the file-system and JSON
errors surfaced by the persistence manager). -/
inductive DbErr : Type
  | databaseExists : DbErr
  | databaseNotFound : DbErr
  | vectorNotFound : DbErr
  | invalidDimensions : DbErr
  | ioFailure : DbErr
deriving DecidableEq

/-- Go `db.Database` (mutex dropped); `Graph` is a Go pointer, hence
`Option`. -/
structure Database where
  Name : String
  Config : DatabaseConfig
  Vectors : List (String × Vector)
  Graph : Option HNSWGraph

/-- Go `db.Manager` (the `config` field and mutex are never read by the
modelled operations and are dropped). -/
structure Manager where
  databases : List (String × Database)

/-- Go `Manager.CreateDatabase`: fail when the name is taken, else register
a fresh database whose graph is built from the config's `M`,
`EfConstruction` and `DistanceType` (the config's `EfSearch` is not passed).
Returns the updated manager together with the new database, as the source
returns the database pointer. -/
def Manager.CreateDatabase (m : Manager) (name : String)
    (dbConfig : DatabaseConfig) : Except DbErr (Manager × Database) :=
  if (alookup m.databases name).isSome then .error .databaseExists
  else
    let db : Database :=
      { Name := name
        Config := dbConfig
        Vectors := []
        Graph := some (NewHNSWGraph dbConfig.HNSW.M dbConfig.HNSW.EfConstruction
          dbConfig.HNSW.DistanceType) }
    .ok ({ m with databases := aset m.databases name db }, db)

/-- Go `Manager.AddVector`: route to the database, reject on a dimension
mismatch, write the identity map (overwriting any prior entry), then call
`db.Graph.Insert(vector)` discarding its error (`manager.go` line 121) — on
failure the graph is unchanged, since `Insert` validates before mutating.
A nil graph, on which Go would panic, is left unchanged. -/
def Manager.AddVector (m : Manager) (dbName : String) (vector : Vector)
    (level : ℕ) : Except DbErr Manager :=
  match alookup m.databases dbName with
  | none => .error .databaseNotFound
  | some db =>
    if (vector.Data.length : ℤ) ≠ db.Config.HNSW.Dimensions then
      .error .invalidDimensions
    else
      let db :=
        { db with
            Vectors := aset db.Vectors vector.ID vector
            Graph := db.Graph.map (fun gr =>
              match gr.Insert level vector with
              | .ok g2 => g2
              | .error _ => gr) }
      .ok { m with databases := aset m.databases dbName db }

/-- Encoding of `HNSWConfig` by `encoding/json` (field tags of
`config.HNSWConfig`). -/
def encodeHNSWConfig (c : HNSWConfig) : Json :=
  .obj [("dimensions", .num c.Dimensions), ("m", .num c.M),
        ("ef_construction", .num c.EfConstruction),
        ("ef_search", .num c.EfSearch), ("distance_type", .num c.DistanceType)]

/-- Encoding of `DatabaseConfig`. -/
def encodeDatabaseConfig (c : DatabaseConfig) : Json :=
  .obj [("hnsw", encodeHNSWConfig c.HNSW)]

/-- Decoding of a JSON number into a Go `int` field (non-integers are
rejected by `encoding/json`). -/
def decodeInt : Json → Option ℤ
  | .num q => if q.den = 1 then some q.num else none
  | _ => none

/-- Decoding of a JSON number into a float field. -/
def decodeNum : Json → Option ℚ
  | .num q => some q
  | _ => none

/-- Decoding of `HNSWConfig`. -/
def decodeHNSWConfig : Json → Option HNSWConfig
  | .obj fields => do
    let dims ← (alookup fields "dimensions").bind decodeInt
    let m ← (alookup fields "m").bind decodeInt
    let efc ← (alookup fields "ef_construction").bind decodeInt
    let efs ← (alookup fields "ef_search").bind decodeInt
    let dt ← (alookup fields "distance_type").bind decodeInt
    some ⟨dims, m, efc, efs, dt⟩
  | _ => none

/-- Decoding of `DatabaseConfig`. -/
def decodeDatabaseConfig : Json → Option DatabaseConfig
  | .obj fields => do
    let h ← (alookup fields "hnsw").bind decodeHNSWConfig
    some ⟨h⟩
  | _ => none

/-- Encoding of a `Vector` (field tags of `db.Vector`; the opaque metadata
blob is stored as is). -/
def encodeVector (v : Vector) : Json :=
  .obj [("id", .str v.ID), ("data", .arr (v.Data.map .num)),
        ("metadata", v.Metadata)]

/-- Decoding of a list of JSON numbers (the `data` array). -/
def decodeNums : List Json → Option (List ℚ)
  | [] => some []
  | j :: rest => do
    let x ← decodeNum j
    let xs ← decodeNums rest
    some (x :: xs)

/-- Decoding of a `Vector`. -/
def decodeVector : Json → Option Vector
  | .obj fields => do
    let id ← match alookup fields "id" with
      | some (.str s) => some s
      | _ => none
    let data ← match alookup fields "data" with
      | some (.arr xs) => decodeNums xs
      | _ => none
    some ⟨id, data, (alookup fields "metadata").getD .null⟩
  | _ => none

/-- Encoding of the identity map (`vectors.json`). -/
def encodeVectors (m : List (String × Vector)) : Json :=
  .obj (m.map (fun kv => (kv.1, encodeVector kv.2)))

/-- Decoding of the identity-map entries. -/
def decodeVectorEntries : List (String × Json) → Option (List (String × Vector))
  | [] => some []
  | (k, j) :: rest => do
    let v ← decodeVector j
    let vs ← decodeVectorEntries rest
    some ((k, v) :: vs)

/-- Decoding of the identity map. -/
def decodeVectors : Json → Option (List (String × Vector))
  | .obj fields => decodeVectorEntries fields
  | _ => none

/-- The file store written by the persistence manager under its base path:
`(database name, file name) ↦ JSON document`. -/
def FileStore : Type := List ((String × String) × Json)

/-- Go `PersistenceManager.SaveDatabase`: write `<name>/config.json` and
`<name>/vectors.json` (directory creation and I/O errors are not modelled —
this is the successful write path). -/
def SaveDatabase (fs : FileStore) (db : Database) : FileStore :=
  aset (aset fs (db.Name, "config.json") (encodeDatabaseConfig db.Config))
    (db.Name, "vectors.json") (encodeVectors db.Vectors)

/-- Go `PersistenceManager.LoadDatabase`: read and decode the two files,
failing on a missing or malformed file, and build a `Database` whose
`Graph` field is left at its zero value (nil). -/
def LoadDatabase (fs : FileStore) (name : String) : Except DbErr Database :=
  match alookup fs (name, "config.json") with
  | none => .error .ioFailure
  | some cj =>
    match decodeDatabaseConfig cj with
    | none => .error .ioFailure
    | some dbConfig =>
      match alookup fs (name, "vectors.json") with
      | none => .error .ioFailure
      | some vj =>
        match decodeVectors vj with
        | none => .error .ioFailure
        | some vectors => .ok ⟨name, dbConfig, vectors, none⟩

/-- The stored ids of a graph. -/
def HNSWGraph.vids (g : HNSWGraph) : List String := g.Vectors.map (·.1)

/-- The node at which the layer-0 search of `Search` starts (result of the
descent phase). -/
def HNSWGraph.layer0Start (g : HNSWGraph) (query : List ℚ) : String :=
  g.descendSearch query ((List.range' 1 g.MaxLayer).reverse) g.EntryPoint

/-- Auxiliary iterated-expansion reachability bound, used only to state
hypotheses about layer-0 connectivity: repeatedly append the unvisited
adjacency successors of the accumulated front. -/
def reach (adj : String → List String) : ℕ → List String → List String
  | 0, acc => acc
  | fuel + 1, acc =>
    if ((acc.map adj).flatten).filter (fun x => decide (x ∉ acc)) = [] then acc
    else reach adj fuel
      (acc ++ ((acc.map adj).flatten).filter (fun x => decide (x ∉ acc)))

/-- Decidable hypothesis: every stored id lies in the layer-0 reachability
closure of the node at which the layer-0 search starts. -/
def HNSWGraph.reachOK (g : HNSWGraph) (query : List ℚ) : Bool :=
  g.vids.all (fun id =>
    decide (id ∈ reach (g.adj 0) (g.vids.length + 1) [g.layer0Start query]))

/-- Modelled from the spec: the neighbor-expansion step as §4.2.6 words it —
"mark visited, compute its distance, and if the result set is not full or
the distance beats the current worst, add it to both the result set and the
frontier.  Always push to the frontier (enabling exploration through
locally worse nodes)."  It differs from `expandNbrs` (the code) only in
pushing every newly visited neighbor onto the candidate set, also when the
result-set test fails. -/
def expandNbrsSpec (g : HNSWGraph) (query : List ℚ) (ef : ℤ) :
    List String → List String × List DistanceItem × List DistanceItem →
    List String × List DistanceItem × List DistanceItem
  | [], st => st
  | n :: ns, (visited, rs, cs) =>
    if n ∈ visited then expandNbrsSpec g query ef ns (visited, rs, cs)
    else
      let visited := n :: visited
      let d := g.Distance query (g.vecOf n).Data
      let rs :=
        if (rs.length : ℤ) < ef ∨ d < worstDist rs then
          let rs := pushDesc ⟨n, d⟩ rs
          if ef < (rs.length : ℤ) then rs.tail else rs
        else rs
      expandNbrsSpec g query ef ns (visited, rs, pushAsc ⟨n, d⟩ cs)

/-- Modelled from the spec: the `searchLayer` loop with the always-push
expansion step of §4.2.6. -/
def searchLoopSpec (g : HNSWGraph) (query : List ℚ) (layer : ℕ) (ef : ℤ) :
    ℕ → List String → List DistanceItem → List DistanceItem →
    List DistanceItem × Bool
  | 0, _, rs, cs => (rs, !cs.isEmpty)
  | fuel + 1, visited, rs, cs =>
    match cs with
    | [] => (rs, false)
    | current :: csRest =>
      if ef ≤ (rs.length : ℤ) ∧ worstDist rs * (11 / 10) < current.Distance then
        (rs, true)
      else
        let (visited, rs, cs) :=
          expandNbrsSpec g query ef (g.adj layer current.ID) (visited, rs, csRest)
        searchLoopSpec g query layer ef fuel visited rs cs

/-- Modelled from the spec: `search_layer` of §4.2.6 with the always-push
frontier discipline, for comparison with the code's `searchLayer`. -/
def HNSWGraph.searchLayerSpec (g : HNSWGraph) (query : List ℚ)
    (entryPoint : String) (k : ℤ) (layer : ℕ) : List String :=
  if k ≤ 0 then []
  else
    let entryPointDist := g.Distance query (g.vecOf entryPoint).Data
    let ef : ℤ := g.effectiveEf k layer
    let (rs, _) := searchLoopSpec g query layer ef (2 * g.layerAdjSize layer + 2)
      [entryPoint] [⟨entryPoint, entryPointDist⟩] [⟨entryPoint, entryPointDist⟩]
    ((sortAsc rs).take k.toNat).map (·.ID)

/-- All adjacency keys and members of every layer satisfy `P`. -/
def LayersWithin (g : HNSWGraph) (P : String → Prop) : Prop :=
  (∀ l id y, y ∈ g.adj l id → P y) ∧
  (∀ l id, id ∈ (g.layerMap l).map Prod.fst → P id)

/-- Well-formedness invariant maintained by every graph reachable from
`NewHNSWGraph` through inserts: an empty entry point means an empty store, a
nonempty one is stored; every adjacency key and member is stored; stored ids
are unique; and the tuning parameters are at least 1. -/
def WFGraph (g : HNSWGraph) : Prop :=
  (g.EntryPoint = "" → g.Vectors = []) ∧
  (g.EntryPoint ≠ "" → g.EntryPoint ∈ g.vids) ∧
  LayersWithin g (· ∈ g.vids) ∧
  g.vids.Nodup ∧
  1 ≤ g.M ∧ 1 ≤ g.EfSearch ∧ 1 ≤ g.EfConstruction

/-- The neighbor-cap invariant of C5: every adjacency list has at most `M`
entries. -/
def CapOK (g : HNSWGraph) : Prop :=
  ∀ l id, ((g.adj l id).length : ℤ) ≤ g.M

/-- Every layer index up to `MaxLayer` is addressable in `Layers`; maintained
by every graph reachable from `NewHNSWGraph` through inserts. -/
def DepthOK (g : HNSWGraph) : Prop :=
  g.MaxLayer < g.Layers.length

/-- The symmetric-edge invariant of C1. -/
def SymOK (g : HNSWGraph) : Prop :=
  ∀ l u w, w ∈ g.adj l u → u ∈ g.adj l w

/-- Vectors of the concrete scenarios: dyadic coordinates, exact in
float32. -/
def vA : Vector := ⟨"a", [0], Json.null⟩

/-- Second concrete vector. -/
def vB : Vector := ⟨"b", [1], Json.null⟩

/-- Third concrete vector. -/
def vC : Vector := ⟨"c", [3], Json.null⟩

/-- Fourth concrete vector; its insertion overfills "b"'s neighbor list. -/
def vD : Vector := ⟨"d", [5/4], Json.null⟩

/-- Three insertions (all at level 0) during which no trim fires. -/
def seq3 : List (ℕ × Vector) := [(0, vA), (0, vB), (0, vC)]

/-- Four insertions (all at level 0); the last one trims "b"'s list. -/
def seq4 : List (ℕ × Vector) := [(0, vA), (0, vB), (0, vC), (0, vD)]

/-- Whether every insertion of the sequence succeeds. -/
def insertsAllOk (g : HNSWGraph) : List (ℕ × Vector) → Bool
  | [] => true
  | (level, v) :: rest =>
    match g.InsertFlag level v with
    | .ok (g2, _) => insertsAllOk g2 rest
    | .error _ => false

/-- A concrete single-layer graph (Manhattan metric): "a" at 10, "b" at 10.5,
"c" at 1, path a - b - c.  Searched from "a" with k = 1, the neighbor "b" of
"a" never beats the current worst result, so the conditional-push code never
explores it and the far-but-optimal "c" is unreachable. -/
def gC4 : HNSWGraph :=
  { M := 2, EfConstruction := 1, EfSearch := 1, MaxLayer := 0, EntryPoint := "a",
    Layers := [[("a", ["b"]), ("b", ["a", "c"]), ("c", ["b"])]],
    Vectors := [("a", ⟨"a", [10], Json.null⟩), ("b", ⟨"b", [21/2], Json.null⟩),
                ("c", ⟨"c", [1], Json.null⟩)],
    DistanceType := 2, mL := 1 }

/-- A one-dimensional database configuration for the manager scenarios. -/
def cfg1 : DatabaseConfig := ⟨⟨1, 2, 1, 1, 2⟩⟩

/-- A graph already holding the vector "a". -/
def gr1 : HNSWGraph := runInserts (NewHNSWGraph 2 1 2) [(0, vA)]

/-- A database whose graph already holds "a". -/
def db1 : Database := ⟨"d", cfg1, [("a", vA)], some gr1⟩

/-- A manager holding `db1` under the name "d". -/
def mgr1 : Manager := ⟨[("d", db1)]⟩

/-- A database value to save and reload. -/
def db2 : Database := ⟨"n", cfg1, [("a", vA)], none⟩

theorem alookup_aset {κ α : Type} [DecidableEq κ] (m : List (κ × α))
    (k k2 : κ) (v : α) :
    alookup (aset m k v) k2 = if k2 = k then some v else alookup m k2 := by
  induction m with
  | nil => by_cases h : k2 = k <;> simp [aset, alookup, h]
  | cons hd t ih =>
    obtain ⟨hk, hv⟩ := hd
    by_cases hkk : k = hk
    · subst hkk
      by_cases h2 : k2 = k <;> simp [aset, alookup, h2]
    · by_cases h2 : k2 = hk
      · subst h2
        have : ¬k2 = k := fun h => hkk h.symm
        simp [aset, hkk, alookup, this]
      · simp [aset, hkk, alookup, h2, ih]

theorem mem_keys_aset {κ α : Type} [DecidableEq κ] (m : List (κ × α))
    (k : κ) (v : α) (x : κ) :
    x ∈ (aset m k v).map Prod.fst ↔ x ∈ m.map Prod.fst ∨ x = k := by
  induction m with
  | nil => simp [aset]
  | cons hd t ih =>
    obtain ⟨hk, hv⟩ := hd
    by_cases hkk : k = hk
    · subst hkk; simp [aset]; tauto
    · simp [aset, hkk, ih]; tauto

theorem nodup_keys_aset {κ α : Type} [DecidableEq κ] (m : List (κ × α))
    (k : κ) (v : α) (h : (m.map Prod.fst).Nodup) :
    ((aset m k v).map Prod.fst).Nodup := by
  induction m with
  | nil => simp [aset]
  | cons hd t ih =>
    obtain ⟨hk, hv⟩ := hd
    rw [List.map_cons, List.nodup_cons] at h
    by_cases hkk : k = hk
    · subst hkk
      simpa [aset] using h
    · have heq : aset ((hk, hv) :: t) k v = (hk, hv) :: aset t k v := by
        simp [aset, hkk]
      rw [heq, List.map_cons, List.nodup_cons]
      refine ⟨fun hx => ?_, ih h.2⟩
      rcases (mem_keys_aset t k v hk).1 hx with hx | hx
      · exact h.1 hx
      · exact hkk hx.symm

theorem alookup_isSome_iff {κ α : Type} [DecidableEq κ] (m : List (κ × α))
    (k : κ) : (alookup m k).isSome = true ↔ k ∈ m.map Prod.fst := by
  induction m with
  | nil => simp [alookup]
  | cons hd t ih =>
    obtain ⟨hk, hv⟩ := hd
    by_cases h : k = hk <;> simp [alookup, h, ih]

theorem alookup_mem {κ α : Type} [DecidableEq κ] {m : List (κ × α)}
    {k : κ} {v : α} (h : alookup m k = some v) : (k, v) ∈ m := by
  induction m with
  | nil => simp [alookup] at h
  | cons hd t ih =>
    obtain ⟨hk, hv⟩ := hd
    by_cases hk2 : k = hk
    · subst hk2
      simp [alookup] at h
      simp [h]
    · simp [alookup, hk2] at h
      exact List.mem_cons_of_mem _ (ih h)

theorem perm_pushDesc (x : DistanceItem) (l : List DistanceItem) :
    (pushDesc x l).Perm (x :: l) := by
  induction l with
  | nil => simp [pushDesc]
  | cons y ys ih =>
    by_cases h : y.Distance ≤ x.Distance
    · simp [pushDesc, h]
    · simp only [pushDesc, h, if_false]
      exact (ih.cons y).trans (List.Perm.swap x y ys)

theorem perm_pushAsc (x : DistanceItem) (l : List DistanceItem) :
    (pushAsc x l).Perm (x :: l) := by
  induction l with
  | nil => simp [pushAsc]
  | cons y ys ih =>
    by_cases h : x.Distance ≤ y.Distance
    · simp [pushAsc, h]
    · simp only [pushAsc, h, if_false]
      exact (ih.cons y).trans (List.Perm.swap x y ys)

theorem sortAsc_perm (l : List DistanceItem) : (sortAsc l).Perm l := by
  induction l with
  | nil => simp [sortAsc]
  | cons y ys ih =>
    simp only [sortAsc, List.foldr_cons]
    exact (perm_pushAsc y _).trans (ih.cons y)

theorem length_pushDesc (x : DistanceItem) (l : List DistanceItem) :
    (pushDesc x l).length = l.length + 1 := by
  simpa using (perm_pushDesc x l).length_eq

theorem length_pushAsc (x : DistanceItem) (l : List DistanceItem) :
    (pushAsc x l).length = l.length + 1 := by
  simpa using (perm_pushAsc x l).length_eq

theorem mem_pushDesc {x y : DistanceItem} {l : List DistanceItem} :
    y ∈ pushDesc x l ↔ y = x ∨ y ∈ l := by
  rw [(perm_pushDesc x l).mem_iff]; simp

theorem mem_pushAsc {x y : DistanceItem} {l : List DistanceItem} :
    y ∈ pushAsc x l ↔ y = x ∨ y ∈ l := by
  rw [(perm_pushAsc x l).mem_iff]; simp

theorem pairwise_pushAsc (x : DistanceItem) (l : List DistanceItem)
    (h : l.Pairwise (fun a b => a.Distance ≤ b.Distance)) :
    (pushAsc x l).Pairwise (fun a b => a.Distance ≤ b.Distance) := by
  induction l with
  | nil => simp [pushAsc]
  | cons y ys ih =>
    rcases List.pairwise_cons.1 h with ⟨hy, hys⟩
    by_cases hle : x.Distance ≤ y.Distance
    · simp only [pushAsc, hle, if_true]
      refine List.pairwise_cons.2 ⟨?_, h⟩
      intro z hz
      rcases List.mem_cons.1 hz with rfl | hz
      · exact hle
      · exact le_trans hle (hy _ hz)
    · simp only [pushAsc, hle, if_false]
      refine List.pairwise_cons.2 ⟨?_, ih hys⟩
      intro z hz
      rcases mem_pushAsc.1 hz with rfl | hz
      · exact le_of_not_le hle
      · exact hy _ hz

theorem pairwise_sortAsc (l : List DistanceItem) :
    (sortAsc l).Pairwise (fun a b => a.Distance ≤ b.Distance) := by
  induction l with
  | nil => simp [sortAsc]
  | cons y ys ih =>
    simp only [sortAsc, List.foldr_cons]
    exact pairwise_pushAsc y _ ih

theorem rsIds_tail_subset (rs : List DistanceItem) :
    rsIds rs.tail ⊆ rsIds rs := by
  simpa [rsIds] using ((List.tail_sublist rs).map (·.ID)).subset

theorem rsIds_pushDesc_perm (x : DistanceItem) (l : List DistanceItem) :
    (rsIds (pushDesc x l)).Perm (x.ID :: rsIds l) := by
  simpa [rsIds] using (perm_pushDesc x l).map (·.ID)

theorem expandNbrs_rs_cap (g : HNSWGraph) (q : List ℚ) (ef : ℤ)
    (ns : List String) :
    ∀ v rs cs, (rs.length : ℤ) ≤ ef →
      (((expandNbrs g q ef ns (v, rs, cs)).2.1).length : ℤ) ≤ ef := by
  induction ns with
  | nil => intro v rs cs h; simpa [expandNbrs] using h
  | cons n ns ih =>
    intro v rs cs h
    by_cases hv : n ∈ v
    · simpa [expandNbrs, hv] using ih v rs cs h
    · simp only [expandNbrs, hv, if_false]
      by_cases hadd : (rs.length : ℤ) < ef ∨
          g.Distance q (g.vecOf n).Data < worstDist rs
      · simp only [hadd, if_true]
        by_cases hover : ef < ((pushDesc ⟨n, g.Distance q (g.vecOf n).Data⟩ rs).length : ℤ)
        · simp only [hover, if_true]
          refine ih _ _ _ ?_
          simp [List.length_tail, length_pushDesc]
          omega
        · simp only [hover, if_false]
          exact ih _ _ _ (le_of_not_lt hover)
      · simp only [hadd, if_false]
        exact ih _ _ _ h

theorem expandNbrs_rs_mono (g : HNSWGraph) (q : List ℚ) (ef : ℤ)
    (ns : List String) :
    ∀ v rs cs, rs.length ≤ ((expandNbrs g q ef ns (v, rs, cs)).2.1).length := by
  induction ns with
  | nil => intro v rs cs; simp [expandNbrs]
  | cons n ns ih =>
    intro v rs cs
    by_cases hv : n ∈ v
    · simpa [expandNbrs, hv] using ih v rs cs
    · simp only [expandNbrs, hv, if_false]
      by_cases hadd : (rs.length : ℤ) < ef ∨
          g.Distance q (g.vecOf n).Data < worstDist rs
      · simp only [hadd, if_true]
        by_cases hover : ef < ((pushDesc ⟨n, g.Distance q (g.vecOf n).Data⟩ rs).length : ℤ)
        · simp only [hover, if_true]
          refine le_trans ?_ (ih _ _ _)
          simp [List.length_tail, length_pushDesc]
        · simp only [hover, if_false]
          refine le_trans ?_ (ih _ _ _)
          simp [length_pushDesc]
      · simp only [hadd, if_false]
        exact ih _ _ _

theorem expandNbrs_visited_iff (g : HNSWGraph) (q : List ℚ) (ef : ℤ)
    (ns : List String) :
    ∀ v rs cs x, x ∈ (expandNbrs g q ef ns (v, rs, cs)).1 ↔ x ∈ v ∨ x ∈ ns := by
  induction ns with
  | nil => intro v rs cs x; simp [expandNbrs]
  | cons n ns ih =>
    intro v rs cs x
    by_cases hv : n ∈ v
    · simp only [expandNbrs, hv, if_true]
      rw [ih]
      simp only [List.mem_cons]
      constructor
      · rintro (h | h)
        · exact Or.inl h
        · exact Or.inr (Or.inr h)
      · rintro (h | rfl | h)
        · exact Or.inl h
        · exact Or.inl hv
        · exact Or.inr h
    · simp only [expandNbrs, hv, if_false]
      by_cases hadd : (rs.length : ℤ) < ef ∨
          g.Distance q (g.vecOf n).Data < worstDist rs
      · simp only [hadd, if_true]
        rw [ih]
        simp only [List.mem_cons]
        tauto
      · simp only [hadd, if_false]
        rw [ih]
        simp only [List.mem_cons]
        tauto

theorem expandNbrs_inv (g : HNSWGraph) (q : List ℚ) (ef : ℤ)
    (ns : List String) :
    ∀ v rs cs, v.Nodup → (rsIds rs).Nodup → rsIds rs ⊆ v → rsIds cs ⊆ v →
      ((expandNbrs g q ef ns (v, rs, cs)).1.Nodup ∧
        (rsIds (expandNbrs g q ef ns (v, rs, cs)).2.1).Nodup ∧
        rsIds (expandNbrs g q ef ns (v, rs, cs)).2.1 ⊆
          (expandNbrs g q ef ns (v, rs, cs)).1 ∧
        rsIds (expandNbrs g q ef ns (v, rs, cs)).2.2 ⊆
          (expandNbrs g q ef ns (v, rs, cs)).1) := by
  induction ns with
  | nil =>
    intro v rs cs h1 h2 h3 h4
    simp only [expandNbrs]
    exact ⟨h1, h2, h3, h4⟩
  | cons n ns ih =>
    intro v rs cs h1 h2 h3 h4
    by_cases hv : n ∈ v
    · simp only [expandNbrs, hv, if_true]
      exact ih v rs cs h1 h2 h3 h4
    · simp only [expandNbrs, hv, if_false]
      by_cases hadd : (rs.length : ℤ) < ef ∨
          g.Distance q (g.vecOf n).Data < worstDist rs
      · simp only [hadd, if_true]
        have hpd : (rsIds (pushDesc ⟨n, g.Distance q (g.vecOf n).Data⟩ rs)).Nodup := by
          refine ((rsIds_pushDesc_perm _ rs).nodup_iff).2 ?_
          exact List.nodup_cons.2 ⟨fun hn => hv (h3 hn), h2⟩
        have hpsub : rsIds (pushDesc ⟨n, g.Distance q (g.vecOf n).Data⟩ rs) ⊆ n :: v := by
          intro x hx
          rcases List.mem_cons.1 ((rsIds_pushDesc_perm _ rs).subset hx) with rfl | hx
          · exact List.mem_cons_self _ _
          · exact List.mem_cons_of_mem _ (h3 hx)
        have hcsub : rsIds (pushAsc ⟨n, g.Distance q (g.vecOf n).Data⟩ cs) ⊆ n :: v := by
          intro x hx
          have : x ∈ (⟨n, g.Distance q (g.vecOf n).Data⟩ : DistanceItem).ID ::
              rsIds cs := by
            simpa [rsIds] using ((perm_pushAsc _ cs).map (·.ID)).subset hx
          rcases List.mem_cons.1 this with rfl | hx
          · exact List.mem_cons_self _ _
          · exact List.mem_cons_of_mem _ (h4 hx)
        by_cases hover : ef <
            ((pushDesc ⟨n, g.Distance q (g.vecOf n).Data⟩ rs).length : ℤ)
        · simp only [hover, if_true]
          refine ih _ _ _ (List.nodup_cons.2 ⟨hv, h1⟩) ?_ ?_ hcsub
          · have hsub : List.Sublist
                (rsIds (pushDesc ⟨n, g.Distance q (g.vecOf n).Data⟩ rs).tail)
                (rsIds (pushDesc ⟨n, g.Distance q (g.vecOf n).Data⟩ rs)) := by
              simpa [rsIds] using (List.tail_sublist _).map
                (fun it : DistanceItem => it.ID)
            exact hsub.nodup hpd
          · exact fun x hx => hpsub (rsIds_tail_subset _ hx)
        · simp only [hover, if_false]
          exact ih _ _ _ (List.nodup_cons.2 ⟨hv, h1⟩) hpd hpsub hcsub
      · simp only [hadd, if_false]
        refine ih _ _ _ (List.nodup_cons.2 ⟨hv, h1⟩) h2 ?_ ?_
        · exact fun x hx => List.mem_cons_of_mem _ (h3 hx)
        · exact fun x hx => List.mem_cons_of_mem _ (h4 hx)

theorem expandNbrs_dist_inv (g : HNSWGraph) (q : List ℚ) (ef : ℤ)
    (ns : List String) :
    ∀ v rs cs,
      (∀ it ∈ rs, it.Distance = g.Distance q (g.vecOf it.ID).Data) →
      ∀ it ∈ (expandNbrs g q ef ns (v, rs, cs)).2.1,
        it.Distance = g.Distance q (g.vecOf it.ID).Data := by
  induction ns with
  | nil => intro v rs cs h; simpa [expandNbrs] using h
  | cons n ns ih =>
    intro v rs cs h
    by_cases hv : n ∈ v
    · simp only [expandNbrs, hv, if_true]
      exact ih v rs cs h
    · simp only [expandNbrs, hv, if_false]
      by_cases hadd : (rs.length : ℤ) < ef ∨
          g.Distance q (g.vecOf n).Data < worstDist rs
      · simp only [hadd, if_true]
        have hpush : ∀ it ∈ pushDesc ⟨n, g.Distance q (g.vecOf n).Data⟩ rs,
            it.Distance = g.Distance q (g.vecOf it.ID).Data := by
          intro it hit
          rcases mem_pushDesc.1 hit with rfl | hit
          · rfl
          · exact h it hit
        by_cases hover : ef <
            ((pushDesc ⟨n, g.Distance q (g.vecOf n).Data⟩ rs).length : ℤ)
        · simp only [hover, if_true]
          exact ih _ _ _ (fun it hit => hpush it ((List.tail_sublist _).subset hit))
        · simp only [hover, if_false]
          exact ih _ _ _ hpush
      · simp only [hadd, if_false]
        exact ih _ _ _ h

theorem expandNbrs_cs_grow (g : HNSWGraph) (q : List ℚ) (ef : ℤ)
    (ns : List String) :
    ∀ v rs cs it, it ∈ cs → it ∈ (expandNbrs g q ef ns (v, rs, cs)).2.2 := by
  induction ns with
  | nil => intro v rs cs it h; simpa [expandNbrs] using h
  | cons n ns ih =>
    intro v rs cs it h
    by_cases hv : n ∈ v
    · simp only [expandNbrs, hv, if_true]
      exact ih v rs cs it h
    · simp only [expandNbrs, hv, if_false]
      by_cases hadd : (rs.length : ℤ) < ef ∨
          g.Distance q (g.vecOf n).Data < worstDist rs
      · simp only [hadd, if_true]
        exact ih _ _ _ it (mem_pushAsc.2 (Or.inr h))
      · simp only [hadd, if_false]
        exact ih _ _ _ it h

theorem expandNbrs_full (g : HNSWGraph) (q : List ℚ) (ef : ℤ)
    (ns : List String) :
    ∀ v rs cs, (((expandNbrs g q ef ns (v, rs, cs)).2.1).length : ℤ) < ef →
      (∀ x, x ∈ rsIds (expandNbrs g q ef ns (v, rs, cs)).2.1 ↔
        x ∈ rsIds rs ∨ (x ∈ ns ∧ x ∉ v)) ∧
      (∀ x, x ∈ rsIds (expandNbrs g q ef ns (v, rs, cs)).2.2 ↔
        x ∈ rsIds cs ∨ (x ∈ ns ∧ x ∉ v)) := by
  induction ns with
  | nil =>
    intro v rs cs _
    simp [expandNbrs]
  | cons n ns ih =>
    intro v rs cs hfin
    by_cases hv : n ∈ v
    · simp only [expandNbrs, hv, if_true] at hfin ⊢
      obtain ⟨ha, hb⟩ := ih v rs cs hfin
      constructor
      · intro x
        rw [ha x]
        simp only [List.mem_cons]
        constructor
        · rintro (h | ⟨h1, h2⟩)
          · exact Or.inl h
          · exact Or.inr ⟨Or.inr h1, h2⟩
        · rintro (h | ⟨h1 | h1, h2⟩)
          · exact Or.inl h
          · exact absurd (h1 ▸ hv) h2
          · exact Or.inr ⟨h1, h2⟩
      · intro x
        rw [hb x]
        simp only [List.mem_cons]
        constructor
        · rintro (h | ⟨h1, h2⟩)
          · exact Or.inl h
          · exact Or.inr ⟨Or.inr h1, h2⟩
        · rintro (h | ⟨h1 | h1, h2⟩)
          · exact Or.inl h
          · exact absurd (h1 ▸ hv) h2
          · exact Or.inr ⟨h1, h2⟩
    · simp only [expandNbrs, hv, if_false] at hfin ⊢
      by_cases hadd : (rs.length : ℤ) < ef ∨
          g.Distance q (g.vecOf n).Data < worstDist rs
      · simp only [hadd, if_true] at hfin ⊢
        by_cases hover : ef <
            ((pushDesc ⟨n, g.Distance q (g.vecOf n).Data⟩ rs).length : ℤ)
        · exfalso
          simp only [hover, if_true] at hfin
          have hge := expandNbrs_rs_mono g q ef ns (n :: v)
            (pushDesc ⟨n, g.Distance q (g.vecOf n).Data⟩ rs).tail
            (pushAsc ⟨n, g.Distance q (g.vecOf n).Data⟩ cs)
          have hlen : (pushDesc ⟨n, g.Distance q (g.vecOf n).Data⟩ rs).tail.length
              = rs.length := by
            simp [List.length_tail, length_pushDesc]
          have hplen := length_pushDesc ⟨n, g.Distance q (g.vecOf n).Data⟩ rs
          omega
        · simp only [hover, if_false] at hfin ⊢
          obtain ⟨ha, hb⟩ := ih _ _ _ hfin
          have hpmem : ∀ x, x ∈ rsIds (pushDesc ⟨n, g.Distance q (g.vecOf n).Data⟩ rs)
              ↔ x = n ∨ x ∈ rsIds rs := by
            intro x
            rw [(rsIds_pushDesc_perm _ rs).mem_iff]
            simp
          have hcmem : ∀ x, x ∈ rsIds (pushAsc ⟨n, g.Distance q (g.vecOf n).Data⟩ cs)
              ↔ x = n ∨ x ∈ rsIds cs := by
            intro x
            have := ((perm_pushAsc (⟨n, g.Distance q (g.vecOf n).Data⟩ : DistanceItem) cs).map
              (fun it : DistanceItem => it.ID)).mem_iff (a := x)
            simpa [rsIds] using this
          constructor
          · intro x
            rw [ha x, hpmem x]
            by_cases hxn : x = n
            · subst hxn
              simp [hv]
            · simp [List.mem_cons, hxn]
          · intro x
            rw [hb x, hcmem x]
            by_cases hxn : x = n
            · subst hxn
              simp [hv]
            · simp [List.mem_cons, hxn]
      · exfalso
        simp only [hadd, if_false] at hfin
        have hge := expandNbrs_rs_mono g q ef ns (n :: v) rs cs
        push_neg at hadd
        omega

theorem searchLoop_cap (g : HNSWGraph) (q : List ℚ) (layer : ℕ) (ef : ℤ) :
    ∀ fuel v rs cs, (rs.length : ℤ) ≤ ef →
      (((searchLoop g q layer ef fuel v rs cs).1).length : ℤ) ≤ ef := by
  intro fuel
  induction fuel with
  | zero => intro v rs cs h; simpa [searchLoop] using h
  | succ fuel ih =>
    intro v rs cs h
    rcases cs with _ | ⟨current, csRest⟩
    · simpa [searchLoop] using h
    · by_cases hbr : ef ≤ (rs.length : ℤ) ∧
          worstDist rs * (11 / 10) < current.Distance
      · simpa [searchLoop, hbr] using h
      · simp only [searchLoop, hbr, if_false]
        have hE := expandNbrs_rs_cap g q ef (g.adj layer current.ID) v rs csRest h
        rcases hEq : expandNbrs g q ef (g.adj layer current.ID) (v, rs, csRest)
          with ⟨v2, rs2, cs2⟩
        rw [hEq] at hE
        exact ih v2 rs2 cs2 hE

theorem searchLoop_mono (g : HNSWGraph) (q : List ℚ) (layer : ℕ) (ef : ℤ) :
    ∀ fuel v rs cs,
      rs.length ≤ ((searchLoop g q layer ef fuel v rs cs).1).length := by
  intro fuel
  induction fuel with
  | zero => intro v rs cs; simp [searchLoop]
  | succ fuel ih =>
    intro v rs cs
    rcases cs with _ | ⟨current, csRest⟩
    · simp [searchLoop]
    · by_cases hbr : ef ≤ (rs.length : ℤ) ∧
          worstDist rs * (11 / 10) < current.Distance
      · simp [searchLoop, hbr]
      · simp only [searchLoop, hbr, if_false]
        have hE := expandNbrs_rs_mono g q ef (g.adj layer current.ID) v rs csRest
        rcases hEq : expandNbrs g q ef (g.adj layer current.ID) (v, rs, csRest)
          with ⟨v2, rs2, cs2⟩
        rw [hEq] at hE
        exact le_trans hE (ih v2 rs2 cs2)

theorem searchLoop_inv (g : HNSWGraph) (q : List ℚ) (layer : ℕ) (ef : ℤ)
    (P : String → Prop)
    (hadj : ∀ id y, y ∈ g.adj layer id → P y) :
    ∀ fuel v rs cs, v.Nodup → (rsIds rs).Nodup → rsIds rs ⊆ v → rsIds cs ⊆ v →
      (∀ x ∈ v, P x) →
      (∀ it ∈ rs, it.Distance = g.Distance q (g.vecOf it.ID).Data) →
      ((rsIds (searchLoop g q layer ef fuel v rs cs).1).Nodup ∧
        (∀ x ∈ rsIds (searchLoop g q layer ef fuel v rs cs).1, P x) ∧
        (∀ it ∈ (searchLoop g q layer ef fuel v rs cs).1,
          it.Distance = g.Distance q (g.vecOf it.ID).Data)) := by
  intro fuel
  induction fuel with
  | zero =>
    intro v rs cs h1 h2 h3 h4 h5 h6
    simp only [searchLoop]
    exact ⟨h2, fun x hx => h5 x (h3 hx), h6⟩
  | succ fuel ih =>
    intro v rs cs h1 h2 h3 h4 h5 h6
    rcases cs with _ | ⟨current, csRest⟩
    · simp only [searchLoop]
      exact ⟨h2, fun x hx => h5 x (h3 hx), h6⟩
    · by_cases hbr : ef ≤ (rs.length : ℤ) ∧
          worstDist rs * (11 / 10) < current.Distance
      · simp only [searchLoop, hbr, if_true]
        exact ⟨h2, fun x hx => h5 x (h3 hx), h6⟩
      · simp only [searchLoop, hbr, if_false]
        have hcsR : rsIds csRest ⊆ v := by
          intro x hx
          exact h4 (List.mem_cons_of_mem _ hx)
        have hInv := expandNbrs_inv g q ef (g.adj layer current.ID) v rs csRest
          h1 h2 h3 hcsR
        have hVis := expandNbrs_visited_iff g q ef (g.adj layer current.ID) v rs csRest
        have hDist := expandNbrs_dist_inv g q ef (g.adj layer current.ID) v rs csRest h6
        rcases hEq : expandNbrs g q ef (g.adj layer current.ID) (v, rs, csRest)
          with ⟨v2, rs2, cs2⟩
        rw [hEq] at hInv hVis hDist
        refine ih v2 rs2 cs2 hInv.1 hInv.2.1 hInv.2.2.1 hInv.2.2.2 ?_ hDist
        intro x hx
        rcases (hVis x).1 hx with hx | hx
        · exact h5 x hx
        · exact hadj current.ID x hx

theorem searchLoop_complete (g : HNSWGraph) (q : List ℚ) (layer : ℕ) (ef : ℤ) :
    ∀ fuel v rs cs rs2,
      searchLoop g q layer ef fuel v rs cs = (rs2, false) →
      (rs2.length : ℤ) < ef →
      (∀ x, x ∈ v ↔ x ∈ rsIds rs) →
      rsIds cs ⊆ v →
      (∀ x ∈ v, x ∈ rsIds cs ∨ (∀ y ∈ g.adj layer x, y ∈ v)) →
      ((∀ x ∈ rsIds rs, x ∈ rsIds rs2) ∧
        (∀ x ∈ rsIds rs2, ∀ y ∈ g.adj layer x, y ∈ rsIds rs2)) := by
  intro fuel
  induction fuel with
  | zero =>
    intro v rs cs rs2 hrun hfin hiff hsub hclosed
    simp only [searchLoop, Prod.mk.injEq] at hrun
    obtain ⟨rfl, hcs⟩ := hrun
    have hcsnil : cs = [] := by
      rcases cs with _ | ⟨a, b⟩
      · rfl
      · simp at hcs
    subst hcsnil
    refine ⟨fun x hx => hx, fun x hx y hy => ?_⟩
    have hv : x ∈ v := (hiff x).2 hx
    rcases hclosed x hv with hc | hc
    · simp [rsIds] at hc
    · exact (hiff y).1 (hc y hy)
  | succ fuel ih =>
    intro v rs cs rs2 hrun hfin hiff hsub hclosed
    rcases cs with _ | ⟨current, csRest⟩
    · simp only [searchLoop, Prod.mk.injEq] at hrun
      obtain ⟨rfl, -⟩ := hrun
      refine ⟨fun x hx => hx, fun x hx y hy => ?_⟩
      have hv : x ∈ v := (hiff x).2 hx
      rcases hclosed x hv with hc | hc
      · simp [rsIds] at hc
      · exact (hiff y).1 (hc y hy)
    · by_cases hbr : ef ≤ (rs.length : ℤ) ∧
          worstDist rs * (11 / 10) < current.Distance
      · simp only [searchLoop] at hrun
        rw [if_pos hbr] at hrun
        have hsnd := congrArg Prod.snd hrun
        simp at hsnd
      · simp only [searchLoop] at hrun
        rw [if_neg hbr] at hrun
        have hVis := expandNbrs_visited_iff g q ef (g.adj layer current.ID) v rs csRest
        have hFull := expandNbrs_full g q ef (g.adj layer current.ID) v rs csRest
        rcases hEq : expandNbrs g q ef (g.adj layer current.ID) (v, rs, csRest)
          with ⟨v2, rs2x, cs2⟩
        rw [hEq] at hrun hVis hFull
        have hLoopMono : rs2x.length ≤ rs2.length := by
          have hm := searchLoop_mono g q layer ef fuel v2 rs2x cs2
          rw [hrun] at hm
          exact hm
        have hmid : ((rs2x.length : ℕ) : ℤ) < ef := by omega
        obtain ⟨hFa, hFb⟩ := hFull hmid
        have hiff2 : ∀ x, x ∈ v2 ↔ x ∈ rsIds rs2x := by
          intro x
          rw [hVis x, hFa x]
          constructor
          · rintro (hx | hx)
            · exact Or.inl ((hiff x).1 hx)
            · by_cases hxv : x ∈ v
              · exact Or.inl ((hiff x).1 hxv)
              · exact Or.inr ⟨hx, hxv⟩
          · rintro (hx | ⟨hx, hxv⟩)
            · exact Or.inl ((hiff x).2 hx)
            · exact Or.inr hx
        have hsub2 : rsIds cs2 ⊆ v2 := by
          intro x hx
          rcases (hFb x).1 hx with hx2 | ⟨hx2, hxv⟩
          · have hxc : x ∈ rsIds (current :: csRest) :=
              List.mem_cons_of_mem _ hx2
            exact (hVis x).2 (Or.inl (hsub hxc))
          · exact (hVis x).2 (Or.inr hx2)
        have hclosed2 : ∀ x ∈ v2, x ∈ rsIds cs2 ∨ (∀ y ∈ g.adj layer x, y ∈ v2) := by
          intro x hx
          by_cases hxv : x ∈ v
          · rcases hclosed x hxv with hc | hc
            · rcases List.mem_cons.1 hc with hcc | hcc
              · right
                intro y hy
                refine (hVis y).2 (Or.inr ?_)
                have hcc2 : x = current.ID := hcc
                exact hcc2 ▸ hy
              · left
                exact (hFb x).2 (Or.inl hcc)
            · right
              intro y hy
              exact (hVis y).2 (Or.inl (hc y hy))
          · have hx2 : x ∈ g.adj layer current.ID := by
              rcases (hVis x).1 hx with hx2 | hx2
              · exact absurd hx2 hxv
              · exact hx2
            left
            exact (hFb x).2 (Or.inr ⟨hx2, hxv⟩)
        obtain ⟨ihA, ihB⟩ := ih v2 rs2x cs2 rs2 hrun hfin hiff2 hsub2 hclosed2
        exact ⟨fun x hx => ihA x ((hFa x).2 (Or.inl hx)), ihB⟩

theorem reach_subset (adj : String → List String) (S : String → Prop)
    (hS : ∀ x, S x → ∀ y ∈ adj x, S y) :
    ∀ fuel acc, (∀ x ∈ acc, S x) → ∀ x ∈ reach adj fuel acc, S x := by
  intro fuel
  induction fuel with
  | zero => intro acc hacc; simpa [reach] using hacc
  | succ fuel ih =>
    intro acc hacc
    simp only [reach]
    by_cases hnext : ((acc.map adj).flatten).filter (fun x => decide (x ∉ acc)) = []
    · rw [if_pos hnext]
      exact hacc
    · rw [if_neg hnext]
      refine ih _ ?_
      intro x hx
      rcases List.mem_append.1 hx with hx | hx
      · exact hacc x hx
      · have hx2 := List.mem_of_mem_filter hx
        rcases List.mem_flatten.1 hx2 with ⟨l, hl, hxl⟩
        rcases List.mem_map.1 hl with ⟨a, ha, rfl⟩
        exact hS a (hacc a ha) x hxl

theorem le_effectiveEf (g : HNSWGraph) (k : ℤ) (layer : ℕ) :
    k ≤ g.effectiveEf k layer := by
  unfold HNSWGraph.effectiveEf
  split_ifs with h1 h2
  · exact le_of_lt h1.2
  · exact le_of_lt h2.2
  · exact le_refl k

theorem searchLayerFlag_props (g : HNSWGraph) (q : List ℚ) (e : String)
    (k : ℤ) (layer : ℕ) (P : String → Prop)
    (hadj : ∀ id y, y ∈ g.adj layer id → P y) (hPe : P e) :
    ((g.searchLayerFlag q e k layer).1.length ≤ k.toNat ∧
      (∀ x ∈ (g.searchLayerFlag q e k layer).1, P x) ∧
      (g.searchLayerFlag q e k layer).1.Nodup ∧
      List.Pairwise
        (fun a b => g.Distance q (g.vecOf a).Data ≤ g.Distance q (g.vecOf b).Data)
        (g.searchLayerFlag q e k layer).1) := by
  by_cases hk : k ≤ 0
  · simp [HNSWGraph.searchLayerFlag, hk]
  · simp only [HNSWGraph.searchLayerFlag, hk, if_false]
    rcases hLoop : searchLoop g q layer (g.effectiveEf k layer)
        (2 * g.layerAdjSize layer + 2) [e]
        [⟨e, g.Distance q (g.vecOf e).Data⟩]
        [⟨e, g.Distance q (g.vecOf e).Data⟩] with ⟨rs2, br⟩
    have hInv := searchLoop_inv g q layer (g.effectiveEf k layer) P hadj
      (2 * g.layerAdjSize layer + 2) [e]
      [⟨e, g.Distance q (g.vecOf e).Data⟩]
      [⟨e, g.Distance q (g.vecOf e).Data⟩]
      (by simp) (by simp [rsIds]) (by simp [rsIds]) (by simp [rsIds])
      (by intro x hx; rcases List.mem_singleton.1 hx with rfl; exact hPe)
      (by intro it hit; rcases List.mem_singleton.1 hit with rfl; rfl)
    rw [hLoop] at hInv
    obtain ⟨hNodup, hP, hDist⟩ := hInv
    have hperm : (sortAsc rs2).Perm rs2 := sortAsc_perm rs2
    have htksub : ((sortAsc rs2).take k.toNat) ⊆ rs2 := by
      intro it hit
      exact hperm.subset ((List.take_subset _ _) hit)
    refine ⟨?_, ?_, ?_, ?_⟩
    · simp only [List.length_map, List.length_take]
      exact le_trans (Nat.min_le_left _ _) (le_refl _)
    · intro x hx
      rcases List.mem_map.1 hx with ⟨it, hit, rfl⟩
      exact hP it.ID (List.mem_map_of_mem _ (htksub hit))
    · have hN2 : (rsIds rs2).Nodup := hNodup
      have hids : (rsIds ((sortAsc rs2).take k.toNat)).Nodup := by
        have hsortIds : (rsIds (sortAsc rs2)).Nodup :=
          ((hperm.map (fun it : DistanceItem => it.ID)).nodup_iff).2 hN2
        have hsubl : List.Sublist (rsIds ((sortAsc rs2).take k.toNat))
            (rsIds (sortAsc rs2)) :=
          (List.take_sublist _ _).map (fun it : DistanceItem => it.ID)
        exact hsubl.nodup hsortIds
      simpa [rsIds] using hids
    · have hpw : ((sortAsc rs2).take k.toNat).Pairwise
          (fun a b => a.Distance ≤ b.Distance) :=
        List.Pairwise.sublist (List.take_sublist _ _) (pairwise_sortAsc rs2)
      refine List.pairwise_map.2 ?_
      refine hpw.imp_of_mem ?_
      intro a b ha hb hab
      rw [hDist a (htksub ha), hDist b (htksub hb)] at hab
      exact hab

theorem searchLayerFlag_count (g : HNSWGraph) (q : List ℚ) (e : String)
    (k : ℤ) (layer : ℕ) (out : List String) (U : List String) (rfuel : ℕ)
    (hk : 0 < k)
    (hrun : g.searchLayerFlag q e k layer = (out, false))
    (hadj : ∀ id y, y ∈ g.adj layer id → y ∈ U)
    (hUe : e ∈ U) (hU : U.Nodup)
    (hreach : ∀ u ∈ U, u ∈ reach (g.adj layer) rfuel [e]) :
    out.length = min k.toNat U.length := by
  have hknonneg : ¬k ≤ 0 := not_le.2 hk
  simp only [HNSWGraph.searchLayerFlag, hknonneg, if_false] at hrun
  rcases hLoop : searchLoop g q layer (g.effectiveEf k layer)
      (2 * g.layerAdjSize layer + 2) [e]
      [⟨e, g.Distance q (g.vecOf e).Data⟩]
      [⟨e, g.Distance q (g.vecOf e).Data⟩] with ⟨rs2, br⟩
  rw [hLoop] at hrun
  simp only [Prod.mk.injEq] at hrun
  obtain ⟨hout, hbr⟩ := hrun
  subst hbr
  have hkef := le_effectiveEf g k layer
  have hcap := searchLoop_cap g q layer (g.effectiveEf k layer)
    (2 * g.layerAdjSize layer + 2) [e]
    [⟨e, g.Distance q (g.vecOf e).Data⟩]
    [⟨e, g.Distance q (g.vecOf e).Data⟩] (by simp; omega)
  rw [hLoop] at hcap
  have hInv := searchLoop_inv g q layer (g.effectiveEf k layer) (· ∈ U) hadj
    (2 * g.layerAdjSize layer + 2) [e]
    [⟨e, g.Distance q (g.vecOf e).Data⟩]
    [⟨e, g.Distance q (g.vecOf e).Data⟩]
    (by simp) (by simp [rsIds]) (by simp [rsIds]) (by simp [rsIds])
    (by intro x hx; rcases List.mem_singleton.1 hx with rfl; exact hUe)
    (by intro it hit; rcases List.mem_singleton.1 hit with rfl; rfl)
  rw [hLoop] at hInv
  obtain ⟨hNodup, hPmem, -⟩ := hInv
  have hsubU : rsIds rs2 ⊆ U := fun x hx => hPmem x hx
  have hlenle : rs2.length ≤ U.length := by
    have := (List.subperm_of_subset hNodup hsubU).length_le
    simpa [rsIds] using this
  have houtlen : out.length = min k.toNat rs2.length := by
    rw [← hout]
    simp [List.length_map, List.length_take, (sortAsc_perm rs2).length_eq]
  by_cases hcase : (rs2.length : ℤ) < g.effectiveEf k layer
  · have hComp := searchLoop_complete g q layer (g.effectiveEf k layer)
      (2 * g.layerAdjSize layer + 2) [e]
      [⟨e, g.Distance q (g.vecOf e).Data⟩]
      [⟨e, g.Distance q (g.vecOf e).Data⟩] rs2 hLoop hcase
      (by intro x; simp [rsIds])
      (by simp [rsIds])
      (by intro x hx; left; simpa [rsIds] using hx)
    obtain ⟨hA, hB⟩ := hComp
    have he2 : e ∈ rsIds rs2 := hA e (by simp [rsIds])
    have hUsub : ∀ u ∈ U, u ∈ rsIds rs2 := by
      intro u hu
      refine reach_subset (g.adj layer) (· ∈ rsIds rs2) ?_ rfuel [e] ?_ u (hreach u hu)
      · intro x hx y hy
        exact hB x hx y hy
      · intro x hx
        rcases List.mem_singleton.1 hx with rfl
        exact he2
    have hlenge : U.length ≤ rs2.length := by
      have := (List.subperm_of_subset hU hUsub).length_le
      simpa [rsIds] using this
    have hUeq : U.length = rs2.length := le_antisymm hlenge hlenle
    rw [houtlen, hUeq]
  · push_neg at hcase
    have h1 : (k.toNat : ℤ) = k := Int.toNat_of_nonneg (le_of_lt hk)
    have hk2 : k.toNat ≤ rs2.length := by omega
    have hk3 : k.toNat ≤ U.length := le_trans hk2 hlenle
    rw [houtlen, min_eq_left hk2, min_eq_left hk3]

theorem sumSqDiff_nonneg (a b : List ℚ) : 0 ≤ sumSqDiff a b := by
  induction a generalizing b with
  | nil => simp [sumSqDiff]
  | cons x xs ih =>
    simp only [sumSqDiff]
    have h1 : 0 ≤ (x - b.headD 0) * (x - b.headD 0) := mul_self_nonneg _
    have h2 := ih b.tail
    linarith

theorem manhattanDistance_nonneg (a b : List ℚ) : 0 ≤ manhattanDistance a b := by
  induction a generalizing b with
  | nil => simp [manhattanDistance]
  | cons x xs ih =>
    simp only [manhattanDistance]
    have h1 : 0 ≤ |x - b.headD 0| := abs_nonneg _
    have h2 := ih b.tail
    linarith

theorem hammingDistance_nonneg (a b : List ℚ) : 0 ≤ hammingDistance a b := by
  induction a generalizing b with
  | nil => simp [hammingDistance]
  | cons x xs ih =>
    simp only [hammingDistance]
    have h2 := ih b.tail
    by_cases h : x = b.headD 0
    · rw [if_pos h]
      linarith
    · rw [if_neg h]
      linarith

theorem cosineDistance_nonneg (a b : List ℚ) : 0 ≤ cosineDistance a b := by
  simp only [cosineDistance]
  split_ifs with h1 h2 h3 h4
  · norm_num
  · norm_num
  · norm_num
  · norm_num
  · have h3b := not_lt.1 h3
    linarith

theorem distance_nonneg (g : HNSWGraph) (a b : List ℚ) : 0 ≤ g.Distance a b := by
  unfold HNSWGraph.Distance
  split_ifs
  · exact sumSqDiff_nonneg a b
  · exact cosineDistance_nonneg a b
  · exact manhattanDistance_nonneg a b
  · exact hammingDistance_nonneg a b
  · exact sumSqDiff_nonneg a b

theorem minDistTo_nonneg (g : HNSWGraph) (x : String) (result : List String) :
    0 ≤ g.minDistTo x result := by
  unfold HNSWGraph.minDistTo
  have hgen : ∀ (l : List String) (acc : ℚ), 0 ≤ acc →
      0 ≤ l.foldl (fun acc rid =>
        let d := g.Distance (g.vecOf x).Data (g.vecOf rid).Data
        if d < acc then d else acc) acc := by
    intro l
    induction l with
    | nil => intro acc h; simpa using h
    | cons r rest ih =>
      intro acc h
      simp only [List.foldl_cons]
      by_cases hd : g.Distance (g.vecOf x).Data (g.vecOf r).Data < acc
      · exact ih _ (by simpa [hd] using distance_nonneg g (g.vecOf x).Data (g.vecOf r).Data)
      · exact ih _ (by simpa [hd] using h)
  refine hgen result maxFloat32 ?_
  unfold maxFloat32
  norm_num

theorem argmaxMinDist_lt (g : HNSWGraph) (result : List String)
    (items : List DistanceItem) (h : items ≠ []) :
    g.argmaxMinDist result items < items.length := by
  unfold HNSWGraph.argmaxMinDist
  have hgen : ∀ (l : List DistanceItem) (i0 : ℕ) (md : ℚ) (mi : ℕ),
      (mi < i0 + l.length ∨ (md < 0 ∧ l ≠ [])) →
      (l.foldl (fun (st : ℕ × ℚ × ℕ) item =>
        let (i, maxDist, maxIdx) := st
        let minDist := g.minDistTo item.ID result
        if maxDist < minDist then (i + 1, minDist, i) else (i + 1, maxDist, maxIdx))
        (i0, md, mi)).2.2 < i0 + l.length := by
    intro l
    induction l with
    | nil =>
      intro i0 md mi hc
      rcases hc with hc | hc
      · simpa using hc
      · exact absurd rfl hc.2
    | cons it rest ih =>
      intro i0 md mi hc
      simp only [List.foldl_cons]
      by_cases hup : md < g.minDistTo it.ID result
      · simp only [hup, if_true]
        have : i0 < (i0 + 1) + rest.length := by omega
        have hres := ih (i0 + 1) (g.minDistTo it.ID result) i0 (Or.inl this)
        simpa [Nat.add_assoc, Nat.add_comm 1 rest.length] using hres
      · simp only [hup, if_false]
        have hmd : 0 ≤ md := by
          have := minDistTo_nonneg g it.ID result
          push_neg at hup
          linarith
        have hmi : mi < i0 + (it :: rest).length := by
          rcases hc with hc | hc
          · exact hc
          · exact absurd hc.1 (not_lt.2 hmd)
        have : mi < (i0 + 1) + rest.length := by
          simp at hmi
          omega
        have hres := ih (i0 + 1) md mi (Or.inl this)
        simpa [Nat.add_assoc, Nat.add_comm 1 rest.length] using hres
  have := hgen items 0 (-1) 0 (Or.inr ⟨by norm_num, h⟩)
  simpa using this

theorem selLoop_subset (g : HNSWGraph) (m : ℤ) (Q : String → Prop) :
    ∀ fuel result items, (∀ x ∈ result, Q x) → (∀ it ∈ items, Q it.ID) →
      ∀ x ∈ g.selLoop m fuel result items, Q x := by
  intro fuel
  induction fuel with
  | zero =>
    intro res items h1 h2 x hx
    exact h1 x (by simpa [HNSWGraph.selLoop] using hx)
  | succ fuel ih =>
    intro res items h1 h2 x hx
    by_cases hc : (res.length : ℤ) < m ∧ !items.isEmpty
    · simp only [HNSWGraph.selLoop, hc, if_true] at hx
      have hne : items ≠ [] := by
        intro hnil
        rw [hnil] at hc
        simpa using hc.2
      have hlt := argmaxMinDist_lt g res items hne
      have hmem : items.getD (g.argmaxMinDist res items) ⟨"", 0⟩ ∈ items := by
        rw [List.getD_eq_getElem?_getD, List.getElem?_eq_getElem hlt]
        exact List.getElem_mem hlt
      refine ih _ _ ?_ ?_ x hx
      · intro y hy
        rcases List.mem_append.1 hy with hy | hy
        · exact h1 y hy
        · rcases List.mem_singleton.1 hy with rfl
          exact h2 _ hmem
      · intro it hit
        exact h2 it (List.eraseIdx_subset _ _ hit)
    · simp only [HNSWGraph.selLoop, hc, if_false] at hx
      exact h1 x hx

theorem selLoop_length (g : HNSWGraph) (m : ℤ) :
    ∀ fuel result items,
      (((g.selLoop m fuel result items).length : ℤ)) ≤ max (result.length : ℤ) m := by
  intro fuel
  induction fuel with
  | zero =>
    intro res items
    simp only [HNSWGraph.selLoop]
    exact le_max_left _ _
  | succ fuel ih =>
    intro res items
    by_cases hc : (res.length : ℤ) < m ∧ !items.isEmpty
    · simp only [HNSWGraph.selLoop, hc, if_true]
      have hrec := ih (res ++ [(items.getD (g.argmaxMinDist res items) ⟨"", 0⟩).ID])
        (items.eraseIdx (g.argmaxMinDist res items))
      have hlen : ((res ++ [(items.getD (g.argmaxMinDist res items) ⟨"", 0⟩).ID]).length : ℤ)
          = (res.length : ℤ) + 1 := by
        simp
      rw [hlen] at hrec
      have hc1 := hc.1
      refine le_trans hrec ?_
      omega
    · simp only [HNSWGraph.selLoop, hc, if_false]
      exact le_max_left _ _

theorem selectNeighbors_subset (g : HNSWGraph) (q : List ℚ)
    (cands : List String) (m : ℤ) :
    ∀ x ∈ g.selectNeighbors q cands m, x ∈ cands := by
  intro x hx
  by_cases hle : (cands.length : ℤ) ≤ m
  · simpa [HNSWGraph.selectNeighbors, hle] using hx
  · simp only [HNSWGraph.selectNeighbors, hle, if_false] at hx
    rcases hitems : sortAsc (cands.map
        (fun id => ⟨id, g.Distance q (g.vecOf id).Data⟩)) with _ | ⟨first, rest⟩
    · rw [hitems] at hx
      simp at hx
    · rw [hitems] at hx
      have hmemitems : ∀ it ∈ sortAsc (cands.map
          (fun id => (⟨id, g.Distance q (g.vecOf id).Data⟩ : DistanceItem))),
          it.ID ∈ cands := by
        intro it hit
        have := (sortAsc_perm _).subset hit
        rcases List.mem_map.1 this with ⟨c, hc, rfl⟩
        exact hc
      refine selLoop_subset g m (· ∈ cands) rest.length [first.ID] rest ?_ ?_ x hx
      · intro y hy
        rcases List.mem_singleton.1 hy with rfl
        exact hmemitems first (by rw [hitems]; exact List.mem_cons_self _ _)
      · intro it hit
        exact hmemitems it (by rw [hitems]; exact List.mem_cons_of_mem _ hit)

theorem selectNeighbors_length (g : HNSWGraph) (q : List ℚ)
    (cands : List String) (m : ℤ) (hm : 1 ≤ m) :
    ((g.selectNeighbors q cands m).length : ℤ) ≤ m := by
  by_cases hle : (cands.length : ℤ) ≤ m
  · simp only [HNSWGraph.selectNeighbors, hle, if_true]
  · simp only [HNSWGraph.selectNeighbors, hle, if_false]
    rcases hitems : sortAsc (cands.map
        (fun id => ⟨id, g.Distance q (g.vecOf id).Data⟩)) with _ | ⟨first, rest⟩
    · simp
      omega
    · have := selLoop_length g m rest.length [first.ID] rest
      have h1 : (([first.ID] : List String).length : ℤ) = 1 := by simp
      rw [h1] at this
      refine le_trans this ?_
      omega

theorem setAdj_fields (g : HNSWGraph) (l : ℕ) (id : String) (ns : List String) :
    ((g.setAdj l id ns).Vectors = g.Vectors ∧
      (g.setAdj l id ns).EntryPoint = g.EntryPoint ∧
      (g.setAdj l id ns).M = g.M ∧
      (g.setAdj l id ns).EfSearch = g.EfSearch ∧
      (g.setAdj l id ns).EfConstruction = g.EfConstruction ∧
      (g.setAdj l id ns).Layers.length = g.Layers.length) := by
  refine ⟨rfl, rfl, rfl, rfl, rfl, ?_⟩
  simp [HNSWGraph.setAdj]

theorem layerMap_setAdj_eq (g : HNSWGraph) (l : ℕ) (id : String)
    (ns : List String) (hl : l < g.Layers.length) (l2 : ℕ) :
    (g.setAdj l id ns).layerMap l2 =
      if l2 = l then aset (g.layerMap l) id ns else g.layerMap l2 := by
  by_cases h : l2 = l
  · subst h
    simp only [if_true]
    simp [HNSWGraph.setAdj, HNSWGraph.layerMap, List.getD_eq_getElem?_getD,
      List.getElem?_set, hl]
  · simp only [h, if_false]
    simp [HNSWGraph.setAdj, HNSWGraph.layerMap, List.getD_eq_getElem?_getD,
      List.getElem?_set_ne (fun he => h he.symm)]

theorem layerMap_setAdj_cases (g : HNSWGraph) (l : ℕ) (id : String)
    (ns : List String) (l2 : ℕ) :
    (g.setAdj l id ns).layerMap l2 = g.layerMap l2 ∨
      (l2 = l ∧ (g.setAdj l id ns).layerMap l2 = aset (g.layerMap l) id ns) := by
  by_cases hl : l < g.Layers.length
  · rw [layerMap_setAdj_eq g l id ns hl l2]
    by_cases h : l2 = l
    · right
      exact ⟨h, by simp [h]⟩
    · left
      simp [h]
  · left
    have hset : ∀ v : List (String × List String), g.Layers.set l v = g.Layers :=
      fun v => List.set_eq_of_length_le (by omega)
    unfold HNSWGraph.setAdj HNSWGraph.layerMap
    simp only [hset]

theorem adj_setAdj_sub (g : HNSWGraph) (l : ℕ) (id : String) (ns : List String)
    (l2 : ℕ) (id2 : String) :
    ∀ y, y ∈ (g.setAdj l id ns).adj l2 id2 → y ∈ g.adj l2 id2 ∨ y ∈ ns := by
  intro y hy
  rcases layerMap_setAdj_cases g l id ns l2 with hcase | ⟨rfl, hcase⟩
  · left
    simpa [HNSWGraph.adj, hcase] using hy
  · simp only [HNSWGraph.adj, hcase] at hy
    rw [alookup_aset] at hy
    by_cases hid : id2 = id
    · right
      simpa [hid] using hy
    · left
      simpa [HNSWGraph.adj, hid] using hy

theorem keys_setAdj_sub (g : HNSWGraph) (l : ℕ) (id : String) (ns : List String)
    (l2 : ℕ) (id2 : String)
    (h : id2 ∈ ((g.setAdj l id ns).layerMap l2).map Prod.fst) :
    id2 ∈ (g.layerMap l2).map Prod.fst ∨ id2 = id := by
  rcases layerMap_setAdj_cases g l id ns l2 with hcase | ⟨rfl, hcase⟩
  · left
    rwa [hcase] at h
  · rw [hcase] at h
    exact (mem_keys_aset _ _ _ _).1 h

theorem setAdj_within (g : HNSWGraph) (l : ℕ) (id : String) (ns : List String)
    (P : String → Prop) (hg : LayersWithin g P) (hid : P id)
    (hns : ∀ y ∈ ns, P y) : LayersWithin (g.setAdj l id ns) P := by
  constructor
  · intro l2 id2 y hy
    rcases adj_setAdj_sub g l id ns l2 id2 y hy with hy | hy
    · exact hg.1 l2 id2 y hy
    · exact hns y hy
  · intro l2 id2 h
    rcases keys_setAdj_sub g l id ns l2 id2 h with h | rfl
    · exact hg.2 l2 id2 h
    · exact hid

theorem linkNeighbors_within (vid : String) (l : ℕ) (P : String → Prop) :
    ∀ ns g fl, LayersWithin g P → P vid → (∀ n ∈ ns, P n) →
      LayersWithin (HNSWGraph.linkNeighbors vid l ns (g, fl)).1 P := by
  intro ns
  induction ns with
  | nil => intro g fl hg _ _; simpa [HNSWGraph.linkNeighbors] using hg
  | cons n ns ih =>
    intro g fl hg hvid hns
    have hPn : P n := hns n (List.mem_cons_self _ _)
    have hupd : ∀ y ∈ g.adj l n ++ [vid], P y := by
      intro y hy
      rcases List.mem_append.1 hy with hy | hy
      · exact hg.1 l n y hy
      · rcases List.mem_singleton.1 hy with rfl
        exact hvid
    have hg1 : LayersWithin (g.setAdj l n (g.adj l n ++ [vid])) P :=
      setAdj_within g l n _ P hg hPn hupd
    simp only [HNSWGraph.linkNeighbors]
    by_cases hth : (g.setAdj l n (g.adj l n ++ [vid])).M < ((g.adj l n ++ [vid]).length : ℤ)
    · rw [if_pos hth]
      refine ih _ _ ?_ hvid (fun x hx => hns x (List.mem_cons_of_mem _ hx))
      refine setAdj_within _ l n _ P hg1 hPn ?_
      intro y hy
      have hsub := selectNeighbors_subset (g.setAdj l n (g.adj l n ++ [vid]))
        ((g.setAdj l n (g.adj l n ++ [vid])).vecOf n).Data (g.adj l n ++ [vid])
        (g.setAdj l n (g.adj l n ++ [vid])).M y hy
      exact hupd y hsub
    · rw [if_neg hth]
      exact ih _ _ hg1 hvid (fun x hx => hns x (List.mem_cons_of_mem _ hx))

theorem linkNeighbors_fields (vid : String) (l : ℕ) :
    ∀ ns g fl,
      ((HNSWGraph.linkNeighbors vid l ns (g, fl)).1.Vectors = g.Vectors ∧
        (HNSWGraph.linkNeighbors vid l ns (g, fl)).1.EntryPoint = g.EntryPoint ∧
        (HNSWGraph.linkNeighbors vid l ns (g, fl)).1.M = g.M ∧
        (HNSWGraph.linkNeighbors vid l ns (g, fl)).1.EfSearch = g.EfSearch ∧
        (HNSWGraph.linkNeighbors vid l ns (g, fl)).1.EfConstruction = g.EfConstruction ∧
        (HNSWGraph.linkNeighbors vid l ns (g, fl)).1.Layers.length = g.Layers.length) := by
  intro ns
  induction ns with
  | nil =>
    intro g fl
    simp [HNSWGraph.linkNeighbors]
  | cons n ns ih =>
    intro g fl
    simp only [HNSWGraph.linkNeighbors]
    by_cases hth : (g.setAdj l n (g.adj l n ++ [vid])).M < ((g.adj l n ++ [vid]).length : ℤ)
    · rw [if_pos hth]
      have hrec := ih ((g.setAdj l n (g.adj l n ++ [vid])).setAdj l n
        ((g.setAdj l n (g.adj l n ++ [vid])).selectNeighbors
          ((g.setAdj l n (g.adj l n ++ [vid])).vecOf n).Data
          (g.adj l n ++ [vid]) (g.setAdj l n (g.adj l n ++ [vid])).M)) true
      refine ⟨hrec.1, hrec.2.1, hrec.2.2.1, hrec.2.2.2.1, hrec.2.2.2.2.1, ?_⟩
      rw [hrec.2.2.2.2.2]
      rw [(setAdj_fields _ _ _ _).2.2.2.2.2, (setAdj_fields _ _ _ _).2.2.2.2.2]
    · rw [if_neg hth]
      have hrec := ih (g.setAdj l n (g.adj l n ++ [vid])) fl
      refine ⟨hrec.1, hrec.2.1, hrec.2.2.1, hrec.2.2.2.1, hrec.2.2.2.2.1, ?_⟩
      rw [hrec.2.2.2.2.2]
      rw [(setAdj_fields _ _ _ _).2.2.2.2.2]

theorem insertAtLayers_within (v : Vector) (P : String → Prop) :
    ∀ ls e g fl, LayersWithin g P → P v.ID → P e →
      LayersWithin (HNSWGraph.insertAtLayers v ls e (g, fl)).1 P := by
  intro ls
  induction ls with
  | nil => intro e g fl hg _ _; simpa [HNSWGraph.insertAtLayers] using hg
  | cons l ls ih =>
    intro e g fl hg hvid he
    have hscand : ∀ x ∈ g.searchLayer v.Data e g.EfConstruction l, P x := by
      have hprops := searchLayerFlag_props g v.Data e g.EfConstruction l P
        (fun id y hy => hg.1 l id y hy) he
      exact hprops.2.1
    have hnbrs : ∀ x ∈ g.selectNeighbors v.Data
        (g.searchLayer v.Data e g.EfConstruction l) g.M, P x := by
      intro x hx
      exact hscand x (selectNeighbors_subset g v.Data _ g.M x hx)
    simp only [HNSWGraph.insertAtLayers]
    have hg1 := setAdj_within g l v.ID _ P hg hvid hnbrs
    have hg2 := linkNeighbors_within v.ID l P
      (g.selectNeighbors v.Data (g.searchLayer v.Data e g.EfConstruction l) g.M)
      (g.setAdj l v.ID (g.selectNeighbors v.Data
        (g.searchLayer v.Data e g.EfConstruction l) g.M)) fl hg1 hvid hnbrs
    rcases hsc : g.searchLayer v.Data e g.EfConstruction l with _ | ⟨c, cs⟩
    · rw [hsc] at hg2
      rcases hLink : HNSWGraph.linkNeighbors v.ID l
          (g.selectNeighbors v.Data [] g.M)
          (g.setAdj l v.ID (g.selectNeighbors v.Data [] g.M), fl) with ⟨g3, fl3⟩
      rw [hLink] at hg2
      exact ih e g3 fl3 hg2 hvid he
    · rw [hsc] at hg2
      have hPc : P c := by
        refine hscand c ?_
        rw [hsc]
        exact List.mem_cons_self _ _
      rcases hLink : HNSWGraph.linkNeighbors v.ID l
          (g.selectNeighbors v.Data (c :: cs) g.M)
          (g.setAdj l v.ID (g.selectNeighbors v.Data (c :: cs) g.M), fl) with ⟨g3, fl3⟩
      rw [hLink] at hg2
      exact ih c g3 fl3 hg2 hvid hPc

theorem insertAtLayers_fields (v : Vector) :
    ∀ ls e g fl,
      ((HNSWGraph.insertAtLayers v ls e (g, fl)).1.Vectors = g.Vectors ∧
        (HNSWGraph.insertAtLayers v ls e (g, fl)).1.EntryPoint = g.EntryPoint ∧
        (HNSWGraph.insertAtLayers v ls e (g, fl)).1.M = g.M ∧
        (HNSWGraph.insertAtLayers v ls e (g, fl)).1.EfSearch = g.EfSearch ∧
        (HNSWGraph.insertAtLayers v ls e (g, fl)).1.EfConstruction = g.EfConstruction ∧
        (HNSWGraph.insertAtLayers v ls e (g, fl)).1.Layers.length = g.Layers.length) := by
  intro ls
  induction ls with
  | nil =>
    intro e g fl
    simp [HNSWGraph.insertAtLayers]
  | cons l ls ih =>
    intro e g fl
    simp only [HNSWGraph.insertAtLayers]
    rcases hLink : HNSWGraph.linkNeighbors v.ID l
        (g.selectNeighbors v.Data (g.searchLayer v.Data e g.EfConstruction l) g.M)
        (g.setAdj l v.ID (g.selectNeighbors v.Data
          (g.searchLayer v.Data e g.EfConstruction l) g.M), fl) with ⟨g2, fl2⟩
    have hrec := ih (match g.searchLayer v.Data e g.EfConstruction l with
      | [] => e
      | c :: _ => c) g2 fl2
    have hlf := linkNeighbors_fields v.ID l
      (g.selectNeighbors v.Data (g.searchLayer v.Data e g.EfConstruction l) g.M)
      (g.setAdj l v.ID (g.selectNeighbors v.Data
        (g.searchLayer v.Data e g.EfConstruction l) g.M)) fl
    rw [hLink] at hlf
    have hsf := setAdj_fields g l v.ID (g.selectNeighbors v.Data
      (g.searchLayer v.Data e g.EfConstruction l) g.M)
    exact ⟨hrec.1.trans (hlf.1.trans hsf.1),
      hrec.2.1.trans (hlf.2.1.trans hsf.2.1),
      hrec.2.2.1.trans (hlf.2.2.1.trans hsf.2.2.1),
      hrec.2.2.2.1.trans (hlf.2.2.2.1.trans hsf.2.2.2.1),
      hrec.2.2.2.2.1.trans (hlf.2.2.2.2.1.trans hsf.2.2.2.2.1),
      hrec.2.2.2.2.2.trans (hlf.2.2.2.2.2.trans hsf.2.2.2.2.2)⟩

theorem LayersWithin.mono {g : HNSWGraph} {P Q : String → Prop}
    (h : LayersWithin g P) (himp : ∀ x, P x → Q x) : LayersWithin g Q :=
  ⟨fun l id y hy => himp y (h.1 l id y hy), fun l id hid => himp id (h.2 l id hid)⟩

theorem extendLayers_layerMap (g : HNSWGraph) (layer : ℕ) (l : ℕ) :
    (g.extendTo layer).layerMap l = g.layerMap l ∨
      (g.extendTo layer).layerMap l = [] := by
  by_cases hl : l < g.Layers.length
  · left
    simp [HNSWGraph.extendTo, HNSWGraph.layerMap, List.getD_eq_getElem?_getD,
      List.getElem?_append_left hl]
  · right
    simp only [HNSWGraph.extendTo, HNSWGraph.layerMap, List.getD_eq_getElem?_getD]
    push_neg at hl
    rw [List.getElem?_append_right hl]
    rcases hrep : (List.replicate (layer + 1 - g.Layers.length)
        ([] : List (String × List String)))[l - g.Layers.length]? with _ | m
    · simp
    · have := List.getElem?_mem hrep
      have hm := List.eq_of_mem_replicate this
      simp [hm]

theorem descendInsert_mem (g : HNSWGraph) (d : List ℚ) (P : String → Prop)
    (hadj : ∀ l id y, y ∈ g.adj l id → P y) :
    ∀ ls e, P e → P (g.descendInsert d ls e) := by
  intro ls
  induction ls with
  | nil => intro e he; simpa [HNSWGraph.descendInsert] using he
  | cons l ls ih =>
    intro e he
    simp only [HNSWGraph.descendInsert]
    rcases hsl : g.searchLayer d e 1 l with _ | ⟨p, rest⟩
    · exact ih e he
    · refine ih p ?_
      have hprops := searchLayerFlag_props g d e 1 l P (fun id y hy => hadj l id y hy) he
      refine hprops.2.1 p ?_
      rw [HNSWGraph.searchLayer] at hsl
      rw [hsl]
      exact List.mem_cons_self _ _

theorem descendSearch_mem (g : HNSWGraph) (q : List ℚ) (P : String → Prop)
    (hadj : ∀ l id y, y ∈ g.adj l id → P y) :
    ∀ ls e, P e → P (g.descendSearch q ls e) := by
  intro ls
  induction ls with
  | nil => intro e he; simpa [HNSWGraph.descendSearch] using he
  | cons l ls ih =>
    intro e he
    simp only [HNSWGraph.descendSearch]
    rcases hsl : g.searchLayer q e 1 l with _ | ⟨p, rest⟩
    · exact he
    · refine ih p ?_
      have hprops := searchLayerFlag_props g q e 1 l P (fun id y hy => hadj l id y hy) he
      refine hprops.2.1 p ?_
      rw [HNSWGraph.searchLayer] at hsl
      rw [hsl]
      exact List.mem_cons_self _ _

theorem NewHNSWGraph_layerMap (m efc dt : ℤ) (l : ℕ) :
    (NewHNSWGraph m efc dt).layerMap l = [] := by
  rcases l with _ | l <;> simp [NewHNSWGraph, HNSWGraph.layerMap]

theorem NewHNSWGraph_WF (m efc dt : ℤ) : WFGraph (NewHNSWGraph m efc dt) := by
  refine ⟨fun _ => rfl, fun h => absurd rfl h, ⟨?_, ?_⟩, ?_, ?_, ?_, ?_⟩
  · intro l id y hy
    simp [HNSWGraph.adj, NewHNSWGraph_layerMap, alookup] at hy
  · intro l id h
    simp [NewHNSWGraph_layerMap] at h
  · simp [HNSWGraph.vids, NewHNSWGraph]
  · simp only [NewHNSWGraph]
    split_ifs <;> omega
  · simp only [NewHNSWGraph]
    split_ifs <;> omega
  · simp only [NewHNSWGraph]
    split_ifs <;> omega

theorem extendTo_WF (g : HNSWGraph) (layer : ℕ) (h : WFGraph g) :
    WFGraph (g.extendTo layer) := by
  obtain ⟨h1, h2, h3, h4, h5, h6, h7⟩ := h
  refine ⟨h1, h2, ⟨?_, ?_⟩, h4, h5, h6, h7⟩
  · intro l id y hy
    rcases extendLayers_layerMap g layer l with hc | hc
    · refine h3.1 l id y ?_
      simpa [HNSWGraph.adj, hc] using hy
    · simp [HNSWGraph.adj, hc, alookup] at hy
  · intro l id hid
    rcases extendLayers_layerMap g layer l with hc | hc
    · refine h3.2 l id ?_
      rwa [hc] at hid
    · rw [hc] at hid
      simp at hid

theorem InsertFlag_WF (g : HNSWGraph) (lvl : ℕ) (v : Vector)
    (g2 : HNSWGraph) (fl : Bool) (hWF : WFGraph g)
    (h : g.InsertFlag lvl v = .ok (g2, fl)) : WFGraph g2 := by
  by_cases h1 : v.Data = []
  · simp [HNSWGraph.InsertFlag, h1] at h
  by_cases h2 : v.ID = ""
  · simp [HNSWGraph.InsertFlag, h1, h2] at h
  by_cases h3 : (alookup g.Vectors v.ID).isSome = true
  · simp [HNSWGraph.InsertFlag, h1, h2, h3] at h
  simp only [HNSWGraph.InsertFlag, h1, h2, h3, Bool.false_eq_true, if_false,
    Except.ok.injEq] at h
  set layer := if 0 < g.mL then lvl else 0 with hlayerdef
  set gx := if g.MaxLayer < layer then g.extendTo layer else g with hgxdef
  have hgxWF : WFGraph gx := by
    rw [hgxdef]
    split_ifs with hext
    · exact extendTo_WF g layer hWF
    · exact hWF
  have hgxE : gx.EntryPoint = g.EntryPoint := by
    rw [hgxdef]
    split_ifs <;> rfl
  obtain ⟨hx1, hx2, hx3, hx4, hx5, hx6, hx7⟩ := hgxWF
  set gV : HNSWGraph := { gx with Vectors := aset gx.Vectors v.ID v } with hgVdef
  have hvidsV : ∀ x, x ∈ gV.vids ↔ x ∈ gx.vids ∨ x = v.ID := by
    intro x
    simpa [HNSWGraph.vids, hgVdef] using mem_keys_aset gx.Vectors v.ID v x
  have hVnodup : gV.vids.Nodup := by
    simpa [HNSWGraph.vids, hgVdef] using nodup_keys_aset gx.Vectors v.ID v hx4
  have hVwithin : LayersWithin gV (· ∈ gV.vids) := by
    have hsame : LayersWithin gV (· ∈ gx.vids) := ⟨hx3.1, hx3.2⟩
    exact hsame.mono (fun x hx => (hvidsV x).2 (Or.inl hx))
  have hVid : v.ID ∈ gV.vids := (hvidsV v.ID).2 (Or.inr rfl)
  by_cases hep : gV.EntryPoint = ""
  · rw [if_pos hep] at h
    simp only [Except.ok.injEq, Prod.mk.injEq] at h
    obtain ⟨hg2, hfl⟩ := h
    subst hg2
    exact ⟨fun he => absurd he h2, fun _ => hVid, hVwithin, hVnodup, hx5, hx6, hx7⟩
  · rw [if_neg hep] at h
    have hmain := insertAtLayers_fields v
      ((List.range (min layer gV.MaxLayer + 1)).reverse)
      (gV.descendInsert v.Data
        ((List.range' (layer + 1) (gV.MaxLayer - layer)).reverse) gV.EntryPoint)
      gV false
    rcases hIns : HNSWGraph.insertAtLayers v
        ((List.range (min layer gV.MaxLayer + 1)).reverse)
        (gV.descendInsert v.Data
          ((List.range' (layer + 1) (gV.MaxLayer - layer)).reverse) gV.EntryPoint)
        (gV, false) with ⟨gR, flR⟩
    rw [hIns] at hmain h
    simp only [Except.ok.injEq, Prod.mk.injEq] at h
    obtain ⟨hg2, hfl⟩ := h
    subst hg2
    have hvidsR : gR.vids = gV.vids := by
      unfold HNSWGraph.vids
      rw [hmain.1]
    have hEPR : gR.EntryPoint = gV.EntryPoint := hmain.2.1
    have hEPmem : gV.EntryPoint ∈ gV.vids := by
      refine (hvidsV _).2 (Or.inl ?_)
      have hne : gx.EntryPoint ≠ "" := hep
      exact hx2 hne
    have hdescend : gV.descendInsert v.Data
        ((List.range' (layer + 1) (gV.MaxLayer - layer)).reverse) gV.EntryPoint
        ∈ gV.vids := by
      refine descendInsert_mem gV v.Data (· ∈ gV.vids) ?_ _ _ hEPmem
      exact hVwithin.1
    have hWithinR : LayersWithin gR (· ∈ gV.vids) := by
      have hres := insertAtLayers_within v (· ∈ gV.vids)
        ((List.range (min layer gV.MaxLayer + 1)).reverse)
        (gV.descendInsert v.Data
          ((List.range' (layer + 1) (gV.MaxLayer - layer)).reverse) gV.EntryPoint)
        gV false hVwithin hVid hdescend
      rwa [hIns] at hres
    refine ⟨fun he => ?_, fun _ => ?_, ?_, ?_, ?_, ?_, ?_⟩
    · rw [hEPR] at he
      exact absurd he hep
    · rw [hEPR, hvidsR]
      exact hEPmem
    · rw [hvidsR]
      exact hWithinR
    · rw [hvidsR]
      exact hVnodup
    · rw [hmain.2.2.1]
      exact hx5
    · rw [hmain.2.2.2.1]
      exact hx6
    · rw [hmain.2.2.2.2.1]
      exact hx7

theorem runInsertsFlag_WF (s : List (ℕ × Vector)) :
    ∀ g, WFGraph g → WFGraph (runInsertsFlag g s).1 := by
  induction s with
  | nil => intro g h; simpa [runInsertsFlag] using h
  | cons p rest ih =>
    intro g h
    obtain ⟨lvl, v⟩ := p
    simp only [runInsertsFlag]
    rcases hins : g.InsertFlag lvl v with e | ⟨g2, fl⟩
    · exact ih g h
    · exact ih g2 (InsertFlag_WF g lvl v g2 fl h hins)

/-- C3: `HNSWGraph.Insert` fails with `EmptyVector` exactly when the data
array is empty; with `InvalidParameter` exactly when (the data is nonempty
and) the id is the empty string; with the duplicate error exactly when (the
first two checks pass and) the id is already stored; and succeeds otherwise.
The three checks are applied in this order, as in `persistence.go` lines
255-270. -/
theorem insert_error_classification (g : HNSWGraph) (lvl : ℕ) (v : Vector) :
    (g.Insert lvl v = .error .emptyVector ↔ v.Data = []) ∧
    (g.Insert lvl v = .error .invalidParameter ↔ (v.Data ≠ [] ∧ v.ID = "")) ∧
    (g.Insert lvl v = .error .duplicate ↔
      (v.Data ≠ [] ∧ v.ID ≠ "" ∧ (alookup g.Vectors v.ID).isSome = true)) ∧
    ((∃ g2, g.Insert lvl v = .ok g2) ↔
      (v.Data ≠ [] ∧ v.ID ≠ "" ∧ ¬(alookup g.Vectors v.ID).isSome = true)) := by
  by_cases h1 : v.Data = []
  · simp [HNSWGraph.Insert, HNSWGraph.InsertFlag, h1, Except.map]
  by_cases h2 : v.ID = ""
  · simp [HNSWGraph.Insert, HNSWGraph.InsertFlag, h1, h2, Except.map]
  by_cases h3 : (alookup g.Vectors v.ID).isSome = true
  · simp [HNSWGraph.Insert, HNSWGraph.InsertFlag, h1, h2, h3, Except.map]
  · simp only [HNSWGraph.Insert, HNSWGraph.InsertFlag, h1, h2, h3,
      Bool.false_eq_true, if_false]
    by_cases hep : ({ (if g.MaxLayer < (if 0 < g.mL then lvl else 0) then
        g.extendTo (if 0 < g.mL then lvl else 0) else g) with
        Vectors := aset (if g.MaxLayer < (if 0 < g.mL then lvl else 0) then
          g.extendTo (if 0 < g.mL then lvl else 0) else g).Vectors v.ID v }
        : HNSWGraph).EntryPoint = ""
    · rw [if_pos hep]
      simp [Except.map, h1, h2, h3]
    · rw [if_neg hep]
      simp [Except.map, h1, h2, h3]

/-- C9: every graph built by `NewHNSWGraph` has `EfSearch` equal to the
(defaulted) `efConstruction` argument, with `M` defaulting to 16 and
`efConstruction` to 200 on nonpositive inputs; and `Manager.CreateDatabase`
builds the graph from the configuration's `M`, `EfConstruction` and
`DistanceType` only, so the configured `ef_search` never reaches the
index. -/
theorem newGraph_efSearch_ignores_config :
    (∀ m efc dt : ℤ, (NewHNSWGraph m efc dt).EfSearch =
        (if efc ≤ 0 then 200 else efc) ∧
      (NewHNSWGraph m efc dt).M = (if m ≤ 0 then 16 else m) ∧
      (NewHNSWGraph m efc dt).EfSearch = (NewHNSWGraph m efc dt).EfConstruction) ∧
    (∀ (name : String) (cfg : DatabaseConfig),
      Manager.CreateDatabase ⟨[]⟩ name cfg =
        .ok (⟨[(name, ⟨name, cfg, [], some (NewHNSWGraph cfg.HNSW.M
            cfg.HNSW.EfConstruction cfg.HNSW.DistanceType)⟩)]⟩,
          ⟨name, cfg, [], some (NewHNSWGraph cfg.HNSW.M
            cfg.HNSW.EfConstruction cfg.HNSW.DistanceType)⟩)) ∧
    (∀ (mgr : Manager) (name : String) (cfg : DatabaseConfig) (es : ℤ),
      (Manager.CreateDatabase mgr name
          ⟨{ cfg.HNSW with EfSearch := es }⟩).map (fun p => p.2.Graph) =
        (Manager.CreateDatabase mgr name cfg).map (fun p => p.2.Graph)) := by
  refine ⟨?_, ?_, ?_⟩
  · intro m efc dt
    exact ⟨rfl, rfl, rfl⟩
  · intro name cfg
    simp [Manager.CreateDatabase, alookup, aset]
  · intro mgr name cfg es
    by_cases h : (alookup mgr.databases name).isSome = true
    · simp [Manager.CreateDatabase, h, Except.map]
    · simp [Manager.CreateDatabase, h, Except.map]

/-- C10: every database returned by a successful `LoadDatabase` has a nil
`Graph` field — no HNSW index is constructed from the restored identity
map. -/
theorem loadDatabase_graph_none (fs : FileStore) (name : String)
    (db : Database) (h : LoadDatabase fs name = .ok db) : db.Graph = none := by
  unfold LoadDatabase at h
  split at h
  · exact Except.noConfusion h
  · split at h
    · exact Except.noConfusion h
    · split at h
      · exact Except.noConfusion h
      · split at h
        · exact Except.noConfusion h
        · simp only [Except.ok.injEq] at h
          rw [← h]

theorem decodeHNSWConfig_encode (c : HNSWConfig) :
    decodeHNSWConfig (encodeHNSWConfig c) = some c := by
  rcases c with ⟨d, m, efc, efs, dt⟩
  simp [encodeHNSWConfig, decodeHNSWConfig, alookup, decodeInt]

theorem decodeDatabaseConfig_encode (c : DatabaseConfig) :
    decodeDatabaseConfig (encodeDatabaseConfig c) = some c := by
  rcases c with ⟨h⟩
  simp [encodeDatabaseConfig, decodeDatabaseConfig, alookup,
    decodeHNSWConfig_encode]

theorem decodeNums_map (l : List ℚ) :
    decodeNums (l.map Json.num) = some l := by
  induction l with
  | nil => rfl
  | cons x xs ih => simp [decodeNums, decodeNum, ih]

theorem decodeVector_encode (v : Vector) :
    decodeVector (encodeVector v) = some v := by
  rcases v with ⟨id, data, meta⟩
  simp [encodeVector, decodeVector, alookup, decodeNums_map]

theorem decodeVectors_encode (m : List (String × Vector)) :
    decodeVectors (encodeVectors m) = some m := by
  have hgen : ∀ l : List (String × Vector),
      decodeVectorEntries (l.map (fun kv => (kv.1, encodeVector kv.2))) = some l := by
    intro l
    induction l with
    | nil => rfl
    | cons kv rest ih =>
      obtain ⟨k, v⟩ := kv
      simp [decodeVectorEntries, decodeVector_encode, ih]
  simpa [encodeVectors, decodeVectors] using hgen m

/-- C7: saving a database and loading it back under the same name, with no
intervening mutations, restores the same `DatabaseConfig` and the same
identity map (and a nil graph, which is the loaded database's only other
content besides the name). -/
theorem saveDatabase_loadDatabase_roundtrip (fs : FileStore) (db : Database) :
    LoadDatabase (SaveDatabase fs db) db.Name =
      .ok ⟨db.Name, db.Config, db.Vectors, none⟩ := by
  have hkey : ((db.Name, "config.json") : String × String) ≠
      (db.Name, "vectors.json") := by
    intro h
    have h2 : ("config.json" : String) = "vectors.json" := congrArg Prod.snd h
    exact absurd h2 (by decide)
  unfold LoadDatabase SaveDatabase
  rw [alookup_aset]
  rw [if_neg hkey]
  rw [alookup_aset, if_pos rfl]
  simp [decodeDatabaseConfig_encode, alookup_aset, decodeVectors_encode]

/-- C8: when the vector's length matches the configured dimensionality and
its id is already present in the index, `Manager.AddVector` overwrites the
identity-map entry and returns success: the `Duplicate` error produced by
`Graph.Insert` is discarded (line 121 of `manager.go`) and the graph is left
unchanged. -/
theorem addVector_discards_insert_error (m : Manager) (name : String)
    (db : Database) (gr : HNSWGraph) (v : Vector) (lvl : ℕ)
    (hdb : alookup m.databases name = some db)
    (hgr : db.Graph = some gr)
    (hdim : (v.Data.length : ℤ) = db.Config.HNSW.Dimensions)
    (hdup : (alookup gr.Vectors v.ID).isSome = true) :
    Manager.AddVector m name v lvl =
      .ok ⟨aset m.databases name
        ({ db with Vectors := aset db.Vectors v.ID v, Graph := some gr })⟩ := by
  have hins : gr.Insert lvl v = .error .emptyVector ∨
      gr.Insert lvl v = .error .invalidParameter ∨
      gr.Insert lvl v = .error .duplicate := by
    by_cases h1 : v.Data = []
    · left
      simp [HNSWGraph.Insert, HNSWGraph.InsertFlag, h1, Except.map]
    by_cases h2 : v.ID = ""
    · right; left
      simp [HNSWGraph.Insert, HNSWGraph.InsertFlag, h1, h2, Except.map]
    · right; right
      simp [HNSWGraph.Insert, HNSWGraph.InsertFlag, h1, h2, hdup, Except.map]
  unfold Manager.AddVector
  rw [hdb]
  have hcond : ¬((v.Data.length : ℤ) ≠ db.Config.HNSW.Dimensions) :=
    fun h => h hdim
  rcases hins with h | h | h <;>
    simp [hcond, hgr, Option.map, h]

/-- C6: for every successful search, the returned vectors are ordered by
non-decreasing distance to the query under the graph's configured metric. -/
theorem search_results_sorted (g : HNSWGraph) (q : List ℚ) (k : ℤ)
    (vs : List Vector) (h : g.Search q k = .ok vs) :
    vs.Pairwise (fun a b => g.Distance q a.Data ≤ g.Distance q b.Data) := by
  rcases hSF : g.SearchFlag q k with e | ⟨vs2, br⟩
  · rw [HNSWGraph.Search, hSF] at h
    simp [Except.map] at h
  rw [HNSWGraph.Search, hSF] at h
  simp only [Except.map, Except.ok.injEq] at h
  subst h
  by_cases h1 : q = []
  · simp [HNSWGraph.SearchFlag, h1] at hSF
  by_cases h2 : k ≤ 0
  · simp [HNSWGraph.SearchFlag, h1, h2] at hSF
  by_cases h3 : g.EntryPoint = ""
  · simp only [HNSWGraph.SearchFlag, h1, h2, h3, if_true, if_false,
      Except.ok.injEq, Prod.mk.injEq] at hSF
    rw [← hSF.1]
    simp
  simp only [HNSWGraph.SearchFlag, h1, h2, h3, if_false, Except.ok.injEq] at hSF
  rcases hsl : g.searchLayerFlag q
      (g.descendSearch q ((List.range' 1 g.MaxLayer).reverse) g.EntryPoint)
      g.EfSearch 0 with ⟨fc, br2⟩
  rw [hsl] at hSF
  rw [Prod.mk.injEq] at hSF
  obtain ⟨hvs, hbr⟩ := hSF
  have hpw : fc.Pairwise
      (fun a b => g.Distance q (g.vecOf a).Data ≤ g.Distance q (g.vecOf b).Data) := by
    have hprops := searchLayerFlag_props g q
      (g.descendSearch q ((List.range' 1 g.MaxLayer).reverse) g.EntryPoint)
      g.EfSearch 0 (fun _ => True) (fun _ _ _ => trivial) trivial
    rw [hsl] at hprops
    exact hprops.2.2.2
  have hpwT : (if k < (fc.length : ℤ) then fc.take k.toNat else fc).Pairwise
      (fun a b => g.Distance q (g.vecOf a).Data ≤ g.Distance q (g.vecOf b).Data) := by
    split_ifs
    · exact List.Pairwise.sublist (List.take_sublist _ _) hpw
    · exact hpw
  rw [← hvs]
  exact List.pairwise_map.2 hpwT

/-- C2 (amended): for every successful `Search(query, k)` on an index built
by a sequence of inserts, the returned list has length at most `k`; the
layer-0 layer search is run with candidate-list width `ef_search` (the code
passes `g.EfSearch`, not `max(k, ef_search)`), so when the layer-0 search
terminates without its early-stop break and every stored id is layer-0
reachable from the node where that search starts, the length is exactly
`min(k, ef_search, n)` for `n` stored vectors. -/
theorem search_cardinality (m efc dt : ℤ) (s : List (ℕ × Vector))
    (q : List ℚ) (k : ℤ) (vs : List Vector) (broke : Bool)
    (hrun : (runInserts (NewHNSWGraph m efc dt) s).SearchFlag q k
      = .ok (vs, broke)) :
    vs.length ≤ k.toNat ∧
      (broke = false →
        (runInserts (NewHNSWGraph m efc dt) s).reachOK q = true →
        (vs.length : ℤ) =
          min k (min (runInserts (NewHNSWGraph m efc dt) s).EfSearch
            ((runInserts (NewHNSWGraph m efc dt) s).Vectors.length : ℤ))) := by
  set g : HNSWGraph := runInserts (NewHNSWGraph m efc dt) s with hgdef
  have hWF : WFGraph g := runInsertsFlag_WF s (NewHNSWGraph m efc dt)
    (NewHNSWGraph_WF m efc dt)
  obtain ⟨hW1, hW2, hW3, hW4, hWM, hWES, hWEC⟩ := hWF
  by_cases h1 : q = []
  · simp [HNSWGraph.SearchFlag, h1] at hrun
  by_cases h2 : k ≤ 0
  · simp [HNSWGraph.SearchFlag, h1, h2] at hrun
  by_cases h3 : g.EntryPoint = ""
  · simp only [HNSWGraph.SearchFlag, h1, h2, h3, if_true, if_false,
      Except.ok.injEq, Prod.mk.injEq] at hrun
    obtain ⟨hvs, hbr⟩ := hrun
    have hvecs : g.Vectors = [] := hW1 h3
    rw [← hvs]
    refine ⟨by simp, fun _ _ => ?_⟩
    rw [hvecs]
    simp only [List.length_nil]
    push_cast
    omega
  simp only [HNSWGraph.SearchFlag, h1, h2, h3, if_false, Except.ok.injEq] at hrun
  rcases hsl : g.searchLayerFlag q
      (g.descendSearch q ((List.range' 1 g.MaxLayer).reverse) g.EntryPoint)
      g.EfSearch 0 with ⟨fc, br2⟩
  rw [hsl] at hrun
  dsimp only at hrun
  rw [Prod.mk.injEq] at hrun
  obtain ⟨hvs, hbr⟩ := hrun
  have hlenfcT : vs.length = min k.toNat fc.length := by
    rw [← hvs, List.length_map]
    split_ifs with hkl
    · rw [List.length_take]
    · omega
  refine ⟨by omega, fun hbroke hreach => ?_⟩
  subst hbroke
  rw [hbr] at hsl
  have hstart : g.descendSearch q ((List.range' 1 g.MaxLayer).reverse)
      g.EntryPoint ∈ g.vids := by
    refine descendSearch_mem g q (· ∈ g.vids) (fun l id y hy => hW3.1 l id y hy)
      _ _ (hW2 h3)
  have hreach2 : ∀ u ∈ g.vids, u ∈ reach (g.adj 0) (g.vids.length + 1)
      [g.layer0Start q] := by
    rw [HNSWGraph.reachOK, List.all_eq_true] at hreach
    intro u hu
    have := hreach u hu
    exact of_decide_eq_true this
  have hcount := searchLayerFlag_count g q
    (g.descendSearch q ((List.range' 1 g.MaxLayer).reverse) g.EntryPoint)
    g.EfSearch 0 fc g.vids (g.vids.length + 1) (by omega) hsl
    (fun id y hy => hW3.1 0 id y hy) hstart hW4 hreach2
  have hvidlen : g.vids.length = g.Vectors.length := by
    simp [HNSWGraph.vids]
  rw [hlenfcT, hcount, hvidlen]
  have hkT : (k.toNat : ℤ) = k := Int.toNat_of_nonneg (by omega)
  have hesT : (g.EfSearch.toNat : ℤ) = g.EfSearch := Int.toNat_of_nonneg (by omega)
  push_cast
  omega

theorem adj_setAdj_eq (g : HNSWGraph) (l : ℕ) (id : String) (ns : List String)
    (hl : l < g.Layers.length) (l2 : ℕ) (id2 : String) :
    (g.setAdj l id ns).adj l2 id2 =
      if l2 = l ∧ id2 = id then ns else g.adj l2 id2 := by
  by_cases hll : l2 = l
  · subst hll
    rw [HNSWGraph.adj, layerMap_setAdj_eq g l2 id ns hl l2, if_pos rfl,
      alookup_aset]
    by_cases hid : id2 = id
    · simp [hid]
    · simp [hid, HNSWGraph.adj]
  · rw [HNSWGraph.adj, layerMap_setAdj_eq g l id ns hl l2, if_neg hll]
    simp [hll, HNSWGraph.adj]

theorem linkNeighbors_MaxLayer (vid : String) (l : ℕ) :
    ∀ ns g fl, (HNSWGraph.linkNeighbors vid l ns (g, fl)).1.MaxLayer = g.MaxLayer := by
  intro ns
  induction ns with
  | nil => intro g fl; simp [HNSWGraph.linkNeighbors]
  | cons n ns ih =>
    intro g fl
    simp only [HNSWGraph.linkNeighbors]
    by_cases hth : (g.setAdj l n (g.adj l n ++ [vid])).M < ((g.adj l n ++ [vid]).length : ℤ)
    · rw [if_pos hth]
      exact (ih _ _).trans rfl
    · rw [if_neg hth]
      exact (ih _ _).trans rfl

theorem insertAtLayers_MaxLayer (v : Vector) :
    ∀ ls e g fl, (HNSWGraph.insertAtLayers v ls e (g, fl)).1.MaxLayer = g.MaxLayer := by
  intro ls
  induction ls with
  | nil => intro e g fl; simp [HNSWGraph.insertAtLayers]
  | cons l ls ih =>
    intro e g fl
    simp only [HNSWGraph.insertAtLayers]
    rcases hLink : HNSWGraph.linkNeighbors v.ID l
        (g.selectNeighbors v.Data (g.searchLayer v.Data e g.EfConstruction l) g.M)
        (g.setAdj l v.ID (g.selectNeighbors v.Data
          (g.searchLayer v.Data e g.EfConstruction l) g.M), fl) with ⟨g2, fl2⟩
    have hl1 := linkNeighbors_MaxLayer v.ID l
      (g.selectNeighbors v.Data (g.searchLayer v.Data e g.EfConstruction l) g.M)
      (g.setAdj l v.ID (g.selectNeighbors v.Data
        (g.searchLayer v.Data e g.EfConstruction l) g.M)) fl
    rw [hLink] at hl1
    exact (ih _ g2 fl2).trans hl1

theorem linkNeighbors_cap (vid : String) (l : ℕ) :
    ∀ ns g fl, l < g.Layers.length → 1 ≤ g.M → CapOK g →
      CapOK (HNSWGraph.linkNeighbors vid l ns (g, fl)).1 := by
  intro ns
  induction ns with
  | nil => intro g fl _ _ hcap; simpa [HNSWGraph.linkNeighbors] using hcap
  | cons n ns ih =>
    intro g fl hl hM hcap
    simp only [HNSWGraph.linkNeighbors]
    have hlen1 : (g.setAdj l n (g.adj l n ++ [vid])).Layers.length
        = g.Layers.length := (setAdj_fields _ _ _ _).2.2.2.2.2
    have hM1 : (g.setAdj l n (g.adj l n ++ [vid])).M = g.M :=
      (setAdj_fields _ _ _ _).2.2.1
    by_cases hth : (g.setAdj l n (g.adj l n ++ [vid])).M < ((g.adj l n ++ [vid]).length : ℤ)
    · rw [if_pos hth]
      refine ih _ _ ?_ ?_ ?_
      · rw [(setAdj_fields _ _ _ _).2.2.2.2.2, hlen1]
        exact hl
      · rw [(setAdj_fields _ _ _ _).2.2.1, hM1]
        exact hM
      · intro l2 id2
        rw [(setAdj_fields _ _ _ _).2.2.1]
        rw [adj_setAdj_eq _ l n _ (by rw [hlen1]; exact hl) l2 id2]
        split_ifs with hcase
        · have := selectNeighbors_length (g.setAdj l n (g.adj l n ++ [vid]))
            ((g.setAdj l n (g.adj l n ++ [vid])).vecOf n).Data
            (g.adj l n ++ [vid]) (g.setAdj l n (g.adj l n ++ [vid])).M
            (by rw [hM1]; exact hM)
          rw [hM1] at this
          exact this
        · rw [adj_setAdj_eq g l n _ hl l2 id2, if_neg hcase]
          exact hcap l2 id2
    · rw [if_neg hth]
      refine ih _ _ (by rw [hlen1]; exact hl) (by rw [hM1]; exact hM) ?_
      intro l2 id2
      rw [hM1, adj_setAdj_eq g l n _ hl l2 id2]
      split_ifs with hcase
      · rw [hM1] at hth
        omega
      · exact hcap l2 id2

theorem insertAtLayers_cap (v : Vector) :
    ∀ ls e g fl, (∀ l ∈ ls, l < g.Layers.length) → 1 ≤ g.M → CapOK g →
      CapOK (HNSWGraph.insertAtLayers v ls e (g, fl)).1 := by
  intro ls
  induction ls with
  | nil => intro e g fl _ _ hcap; simpa [HNSWGraph.insertAtLayers] using hcap
  | cons l ls ih =>
    intro e g fl hls hM hcap
    have hl : l < g.Layers.length := hls l (List.mem_cons_self _ _)
    have hnbrsle := selectNeighbors_length g v.Data
      (g.searchLayer v.Data e g.EfConstruction l) g.M hM
    have hcap1 : CapOK (g.setAdj l v.ID (g.selectNeighbors v.Data
        (g.searchLayer v.Data e g.EfConstruction l) g.M)) := by
      intro l2 id2
      rw [(setAdj_fields _ _ _ _).2.2.1, adj_setAdj_eq g l v.ID _ hl l2 id2]
      split_ifs with hcase
      · exact hnbrsle
      · exact hcap l2 id2
    have hcap2 := linkNeighbors_cap v.ID l
      (g.selectNeighbors v.Data (g.searchLayer v.Data e g.EfConstruction l) g.M)
      (g.setAdj l v.ID (g.selectNeighbors v.Data
        (g.searchLayer v.Data e g.EfConstruction l) g.M)) fl
      (by rw [(setAdj_fields _ _ _ _).2.2.2.2.2]; exact hl)
      (by rw [(setAdj_fields _ _ _ _).2.2.1]; exact hM) hcap1
    simp only [HNSWGraph.insertAtLayers]
    rcases hLink : HNSWGraph.linkNeighbors v.ID l
        (g.selectNeighbors v.Data (g.searchLayer v.Data e g.EfConstruction l) g.M)
        (g.setAdj l v.ID (g.selectNeighbors v.Data
          (g.searchLayer v.Data e g.EfConstruction l) g.M), fl) with ⟨g2, fl2⟩
    rw [hLink] at hcap2
    have hflds := linkNeighbors_fields v.ID l
      (g.selectNeighbors v.Data (g.searchLayer v.Data e g.EfConstruction l) g.M)
      (g.setAdj l v.ID (g.selectNeighbors v.Data
        (g.searchLayer v.Data e g.EfConstruction l) g.M)) fl
    rw [hLink] at hflds
    refine ih _ g2 fl2 ?_ ?_ hcap2
    · intro l2 hl2
      rw [hflds.2.2.2.2.2, (setAdj_fields _ _ _ _).2.2.2.2.2]
      exact hls l2 (List.mem_cons_of_mem _ hl2)
    · rw [hflds.2.2.1, (setAdj_fields _ _ _ _).2.2.1]
      exact hM

theorem NewHNSWGraph_depth (m efc dt : ℤ) : DepthOK (NewHNSWGraph m efc dt) := by
  simp [DepthOK, NewHNSWGraph]

theorem extendTo_depth (g : HNSWGraph) (layer : ℕ) : DepthOK (g.extendTo layer) := by
  simp only [DepthOK, HNSWGraph.extendTo, List.length_append, List.length_replicate]
  omega

theorem NewHNSWGraph_cap (m efc dt : ℤ) : CapOK (NewHNSWGraph m efc dt) := by
  intro l id
  rw [HNSWGraph.adj, NewHNSWGraph_layerMap]
  simp only [alookup, Option.getD_none, List.length_nil, Nat.cast_zero]
  exact le_trans (by norm_num) (NewHNSWGraph_WF m efc dt).2.2.2.2.1

theorem InsertFlag_depth_cap (g : HNSWGraph) (lvl : ℕ) (v : Vector)
    (g2 : HNSWGraph) (fl : Bool) (hWF : WFGraph g) (hD : DepthOK g)
    (hC : CapOK g) (h : g.InsertFlag lvl v = .ok (g2, fl)) :
    DepthOK g2 ∧ CapOK g2 := by
  by_cases h1 : v.Data = []
  · simp [HNSWGraph.InsertFlag, h1] at h
  by_cases h2 : v.ID = ""
  · simp [HNSWGraph.InsertFlag, h1, h2] at h
  by_cases h3 : (alookup g.Vectors v.ID).isSome = true
  · simp [HNSWGraph.InsertFlag, h1, h2, h3] at h
  simp only [HNSWGraph.InsertFlag, h1, h2, h3, Bool.false_eq_true, if_false,
    Except.ok.injEq] at h
  set layer := if 0 < g.mL then lvl else 0 with hlayerdef
  set gx := if g.MaxLayer < layer then g.extendTo layer else g with hgxdef
  have hgxD : DepthOK gx := by
    rw [hgxdef]
    split_ifs with hext
    · exact extendTo_depth g layer
    · exact hD
  have hgxC : CapOK gx := by
    rw [hgxdef]
    split_ifs with hext
    · intro l id
      have hMsame : (g.extendTo layer).M = g.M := rfl
      rw [hMsame]
      rcases extendLayers_layerMap g layer l with hcase | hcase
      · rw [HNSWGraph.adj, hcase]
        exact hC l id
      · rw [HNSWGraph.adj, hcase]
        simp only [alookup, Option.getD_none, List.length_nil, Nat.cast_zero]
        exact le_trans (by norm_num) hWF.2.2.2.2.1
    · exact hC
  have hgxM : 1 ≤ gx.M := by
    rw [hgxdef]
    split_ifs
    · exact hWF.2.2.2.2.1
    · exact hWF.2.2.2.2.1
  set gV : HNSWGraph := { gx with Vectors := aset gx.Vectors v.ID v } with hgVdef
  have hgVD : DepthOK gV := hgxD
  have hgVC : CapOK gV := hgxC
  by_cases hep : gV.EntryPoint = ""
  · rw [if_pos hep] at h
    simp only [Except.ok.injEq, Prod.mk.injEq] at h
    obtain ⟨hg2, hfl⟩ := h
    subst hg2
    exact ⟨hgVD, hgVC⟩
  · rw [if_neg hep] at h
    rcases hIns : HNSWGraph.insertAtLayers v
        ((List.range (min layer gV.MaxLayer + 1)).reverse)
        (gV.descendInsert v.Data
          ((List.range' (layer + 1) (gV.MaxLayer - layer)).reverse) gV.EntryPoint)
        (gV, false) with ⟨gR, flR⟩
    rw [hIns] at h
    simp only [Except.ok.injEq, Prod.mk.injEq] at h
    obtain ⟨hg2, hfl⟩ := h
    subst hg2
    have hls : ∀ l ∈ (List.range (min layer gV.MaxLayer + 1)).reverse,
        l < gV.Layers.length := by
      intro l hl
      rw [List.mem_reverse, List.mem_range] at hl
      have : l ≤ gV.MaxLayer := by omega
      exact lt_of_le_of_lt this hgVD
    have hcapR := insertAtLayers_cap v
      ((List.range (min layer gV.MaxLayer + 1)).reverse)
      (gV.descendInsert v.Data
        ((List.range' (layer + 1) (gV.MaxLayer - layer)).reverse) gV.EntryPoint)
      gV false hls hgxM hgVC
    rw [hIns] at hcapR
    have hML := insertAtLayers_MaxLayer v
      ((List.range (min layer gV.MaxLayer + 1)).reverse)
      (gV.descendInsert v.Data
        ((List.range' (layer + 1) (gV.MaxLayer - layer)).reverse) gV.EntryPoint)
      gV false
    rw [hIns] at hML
    have hLen := insertAtLayers_fields v
      ((List.range (min layer gV.MaxLayer + 1)).reverse)
      (gV.descendInsert v.Data
        ((List.range' (layer + 1) (gV.MaxLayer - layer)).reverse) gV.EntryPoint)
      gV false
    rw [hIns] at hLen
    refine ⟨?_, hcapR⟩
    show gR.MaxLayer < gR.Layers.length
    rw [hML, hLen.2.2.2.2.2]
    exact hgVD

theorem runInsertsFlag_cap (s : List (ℕ × Vector)) :
    ∀ g, WFGraph g → DepthOK g → CapOK g →
      CapOK (runInsertsFlag g s).1 := by
  induction s with
  | nil => intro g _ _ hC; simpa [runInsertsFlag] using hC
  | cons p rest ih =>
    intro g hWF hD hC
    obtain ⟨lvl, v⟩ := p
    simp only [runInsertsFlag]
    rcases hins : g.InsertFlag lvl v with e | ⟨g2, fl⟩
    · exact ih g hWF hD hC
    · obtain ⟨hD2, hC2⟩ := InsertFlag_depth_cap g lvl v g2 fl hWF hD hC hins
      exact ih g2 (InsertFlag_WF g lvl v g2 fl hWF hins) hD2 hC2

/-- C5: after any sequence of insertions from a fresh graph, every neighbor
list in every layer has length at most `M`: the trim inside the mutual-linking
loop restores the cap whenever an append exceeds it. -/
theorem neighbor_lists_capped (m efc dt : ℤ) (s : List (ℕ × Vector))
    (l : ℕ) (u : String) :
    (((runInserts (NewHNSWGraph m efc dt) s).adj l u).length : ℤ)
      ≤ (runInserts (NewHNSWGraph m efc dt) s).M :=
  runInsertsFlag_cap s (NewHNSWGraph m efc dt) (NewHNSWGraph_WF m efc dt)
    (NewHNSWGraph_depth m efc dt) (NewHNSWGraph_cap m efc dt) l u

theorem linkNeighbors_flag_true (vid : String) (l : ℕ) :
    ∀ ns g, (HNSWGraph.linkNeighbors vid l ns (g, true)).2 = true := by
  intro ns
  induction ns with
  | nil => intro g; simp [HNSWGraph.linkNeighbors]
  | cons n ns ih =>
    intro g
    simp only [HNSWGraph.linkNeighbors]
    by_cases hth : (g.setAdj l n (g.adj l n ++ [vid])).M < ((g.adj l n ++ [vid]).length : ℤ)
    · rw [if_pos hth]
      exact ih _
    · rw [if_neg hth]
      exact ih _

theorem insertAtLayers_flag_true (v : Vector) :
    ∀ ls e g, (HNSWGraph.insertAtLayers v ls e (g, true)).2 = true := by
  intro ls
  induction ls with
  | nil => intro e g; simp [HNSWGraph.insertAtLayers]
  | cons l ls ih =>
    intro e g
    simp only [HNSWGraph.insertAtLayers]
    rcases hLink : HNSWGraph.linkNeighbors v.ID l
        (g.selectNeighbors v.Data (g.searchLayer v.Data e g.EfConstruction l) g.M)
        (g.setAdj l v.ID (g.selectNeighbors v.Data
          (g.searchLayer v.Data e g.EfConstruction l) g.M), true) with ⟨g2, fl2⟩
    have hfl2 : fl2 = true := by
      have := linkNeighbors_flag_true v.ID l
        (g.selectNeighbors v.Data (g.searchLayer v.Data e g.EfConstruction l) g.M)
        (g.setAdj l v.ID (g.selectNeighbors v.Data
          (g.searchLayer v.Data e g.EfConstruction l) g.M))
      rw [hLink] at this
      exact this
    rw [hfl2]
    exact ih _ g2

theorem adj_not_key (g : HNSWGraph) (l : ℕ) (id : String)
    (h : id ∉ (g.layerMap l).map Prod.fst) : g.adj l id = [] := by
  rw [HNSWGraph.adj]
  have hnone : alookup (g.layerMap l) id = none := by
    by_cases hs : (alookup (g.layerMap l) id).isSome = true
    · exact absurd ((alookup_isSome_iff _ _).1 hs) h
    · rcases hv : alookup (g.layerMap l) id with _ | v
      · rfl
      · rw [hv] at hs
        simp at hs
  rw [hnone]
  rfl

theorem linkNeighbors_layerMap_other (vid : String) (l : ℕ) :
    ∀ ns g fl l2, l2 ≠ l → l < g.Layers.length →
      (HNSWGraph.linkNeighbors vid l ns (g, fl)).1.layerMap l2 = g.layerMap l2 := by
  intro ns
  induction ns with
  | nil => intro g fl l2 _ _; simp [HNSWGraph.linkNeighbors]
  | cons n ns ih =>
    intro g fl l2 hne hl
    simp only [HNSWGraph.linkNeighbors]
    have h1 : (g.setAdj l n (g.adj l n ++ [vid])).layerMap l2 = g.layerMap l2 := by
      rw [layerMap_setAdj_eq g l n _ hl l2, if_neg hne]
    have hlen1 : (g.setAdj l n (g.adj l n ++ [vid])).Layers.length = g.Layers.length :=
      (setAdj_fields _ _ _ _).2.2.2.2.2
    by_cases hth : (g.setAdj l n (g.adj l n ++ [vid])).M < ((g.adj l n ++ [vid]).length : ℤ)
    · rw [if_pos hth]
      rw [ih _ _ l2 hne (by rw [(setAdj_fields _ _ _ _).2.2.2.2.2, hlen1]; exact hl)]
      rw [layerMap_setAdj_eq _ l n _ (by rw [hlen1]; exact hl) l2, if_neg hne]
      exact h1
    · rw [if_neg hth]
      rw [ih _ _ l2 hne (by rw [hlen1]; exact hl)]
      exact h1

theorem linkNeighbors_noTrim_adj (vid : String) (l : ℕ) :
    ∀ ns g, l < g.Layers.length →
      (HNSWGraph.linkNeighbors vid l ns (g, false)).2 = false →
      ∀ l2 u w, (w ∈ (HNSWGraph.linkNeighbors vid l ns (g, false)).1.adj l2 u ↔
        w ∈ g.adj l2 u ∨ (l2 = l ∧ u ∈ ns ∧ w = vid)) := by
  intro ns
  induction ns with
  | nil =>
    intro g _ _ l2 u w
    simp [HNSWGraph.linkNeighbors]
  | cons n ns ih =>
    intro g hl hfl l2 u w
    simp only [HNSWGraph.linkNeighbors] at hfl ⊢
    by_cases hth : (g.setAdj l n (g.adj l n ++ [vid])).M < ((g.adj l n ++ [vid]).length : ℤ)
    · rw [if_pos hth] at hfl
      have := linkNeighbors_flag_true vid l ns
        ((g.setAdj l n (g.adj l n ++ [vid])).setAdj l n
          ((g.setAdj l n (g.adj l n ++ [vid])).selectNeighbors
            ((g.setAdj l n (g.adj l n ++ [vid])).vecOf n).Data
            (g.adj l n ++ [vid]) (g.setAdj l n (g.adj l n ++ [vid])).M))
      rw [hfl] at this
      exact absurd this (by simp)
    · rw [if_neg hth] at hfl ⊢
      have hlen1 : (g.setAdj l n (g.adj l n ++ [vid])).Layers.length
          = g.Layers.length := (setAdj_fields _ _ _ _).2.2.2.2.2
      rw [ih (g.setAdj l n (g.adj l n ++ [vid])) (by rw [hlen1]; exact hl) hfl l2 u w]
      rw [adj_setAdj_eq g l n _ hl l2 u]
      by_cases hc : l2 = l ∧ u = n
      · rw [if_pos hc]
        obtain ⟨hc1, hc2⟩ := hc
        subst hc1
        subst hc2
        simp only [List.mem_append, List.mem_cons, List.not_mem_nil, or_false,
          true_and]
        tauto
      · rw [if_neg hc]
        simp only [List.mem_cons]
        tauto

theorem linkStep_sym (g : HNSWGraph) (l : ℕ) (vid : String) (nbrs : List String)
    (hl : l < g.Layers.length)
    (hkey : vid ∉ (g.layerMap l).map Prod.fst)
    (hsym : SymOK g)
    (hfl : (HNSWGraph.linkNeighbors vid l nbrs (g.setAdj l vid nbrs, false)).2 = false) :
    SymOK (HNSWGraph.linkNeighbors vid l nbrs (g.setAdj l vid nbrs, false)).1 := by
  have hl1 : l < (g.setAdj l vid nbrs).Layers.length := by
    rw [(setAdj_fields _ _ _ _).2.2.2.2.2]
    exact hl
  have hchar := linkNeighbors_noTrim_adj vid l nbrs (g.setAdj l vid nbrs) hl1 hfl
  have hadj1 : ∀ l2 u, (g.setAdj l vid nbrs).adj l2 u
      = if l2 = l ∧ u = vid then nbrs else g.adj l2 u :=
    fun l2 u => adj_setAdj_eq g l vid nbrs hl l2 u
  have hempty : g.adj l vid = [] := adj_not_key g l vid hkey
  intro l2 u w hw
  rw [hchar l2 u w, hadj1 l2 u] at hw
  rw [hchar l2 w u, hadj1 l2 w]
  rcases hw with hw | ⟨rfl, hun, rfl⟩
  · by_cases hcu : l2 = l ∧ u = vid
    · rw [if_pos hcu] at hw
      exact Or.inr ⟨hcu.1, hw, hcu.2⟩
    · rw [if_neg hcu] at hw
      have hback := hsym l2 u w hw
      by_cases hcw : l2 = l ∧ w = vid
      · exfalso
        obtain ⟨h1, h2⟩ := hcw
        subst h1
        subst h2
        rw [hempty] at hback
        exact List.not_mem_nil u hback
      · rw [if_neg hcw]
        exact Or.inl hback
  · rw [if_pos ⟨rfl, rfl⟩]
    exact Or.inl hun

theorem insertAtLayers_sym (v : Vector) :
    ∀ ls e g, (∀ l ∈ ls, l < g.Layers.length) →
      (∀ l ∈ ls, v.ID ∉ (g.layerMap l).map Prod.fst) →
      ls.Nodup → SymOK g →
      (HNSWGraph.insertAtLayers v ls e (g, false)).2 = false →
      SymOK (HNSWGraph.insertAtLayers v ls e (g, false)).1 := by
  intro ls
  induction ls with
  | nil => intro e g _ _ _ hsym _; simpa [HNSWGraph.insertAtLayers] using hsym
  | cons l ls ih =>
    intro e g hls hkeys hnodup hsym hfl
    have hl : l < g.Layers.length := hls l (List.mem_cons_self _ _)
    have hkeyl : v.ID ∉ (g.layerMap l).map Prod.fst :=
      hkeys l (List.mem_cons_self _ _)
    simp only [HNSWGraph.insertAtLayers] at hfl ⊢
    rcases hLink : HNSWGraph.linkNeighbors v.ID l
        (g.selectNeighbors v.Data (g.searchLayer v.Data e g.EfConstruction l) g.M)
        (g.setAdj l v.ID (g.selectNeighbors v.Data
          (g.searchLayer v.Data e g.EfConstruction l) g.M), false) with ⟨g2, fl2⟩
    rw [hLink] at hfl
    simp only [hLink]
    dsimp only at hfl ⊢
    have hfl2 : fl2 = false := by
      rcases hb : fl2 with _ | _
      · rfl
      · rw [hb] at hfl
        have := insertAtLayers_flag_true v ls
          (match g.searchLayer v.Data e g.EfConstruction l with
            | [] => e
            | c :: _ => c) g2
        rw [hfl] at this
        exact absurd this.symm (by simp)
    rw [hfl2] at hfl hLink ⊢
    have hsym2 : SymOK g2 := by
      have := linkStep_sym g l v.ID
        (g.selectNeighbors v.Data (g.searchLayer v.Data e g.EfConstruction l) g.M)
        hl hkeyl hsym (by rw [hLink])
      rw [hLink] at this
      exact this
    have hlen2 : g2.Layers.length = g.Layers.length := by
      have h1 := linkNeighbors_fields v.ID l
        (g.selectNeighbors v.Data (g.searchLayer v.Data e g.EfConstruction l) g.M)
        (g.setAdj l v.ID (g.selectNeighbors v.Data
          (g.searchLayer v.Data e g.EfConstruction l) g.M)) false
      rw [hLink] at h1
      rw [h1.2.2.2.2.2, (setAdj_fields _ _ _ _).2.2.2.2.2]
    have hlm : ∀ l2, l2 ≠ l → g2.layerMap l2 = g.layerMap l2 := by
      intro l2 hne
      have h1 := linkNeighbors_layerMap_other v.ID l
        (g.selectNeighbors v.Data (g.searchLayer v.Data e g.EfConstruction l) g.M)
        (g.setAdj l v.ID (g.selectNeighbors v.Data
          (g.searchLayer v.Data e g.EfConstruction l) g.M)) false l2 hne
        (by rw [(setAdj_fields _ _ _ _).2.2.2.2.2]; exact hl)
      rw [hLink] at h1
      rw [h1, layerMap_setAdj_eq g l v.ID _ hl l2, if_neg hne]
    refine ih _ g2 ?_ ?_ hnodup.of_cons hsym2 hfl
    · intro l2 hl2
      rw [hlen2]
      exact hls l2 (List.mem_cons_of_mem _ hl2)
    · intro l2 hl2
      have hne : l2 ≠ l := by
        intro heq
        subst heq
        exact (List.nodup_cons.1 hnodup).1 hl2
      rw [hlm l2 hne]
      exact hkeys l2 (List.mem_cons_of_mem _ hl2)

theorem NewHNSWGraph_sym (m efc dt : ℤ) : SymOK (NewHNSWGraph m efc dt) := by
  intro l u w hw
  rw [HNSWGraph.adj, NewHNSWGraph_layerMap] at hw
  simp [alookup] at hw

theorem extendTo_sym (g : HNSWGraph) (layer : ℕ) (h : SymOK g) :
    SymOK (g.extendTo layer) := by
  intro l u w hw
  rcases extendLayers_layerMap g layer l with hc | hc
  · rw [HNSWGraph.adj, hc] at hw ⊢
    exact h l u w hw
  · rw [HNSWGraph.adj, hc] at hw
    simp [alookup] at hw

theorem InsertFlag_sym (g : HNSWGraph) (lvl : ℕ) (v : Vector) (g2 : HNSWGraph)
    (hWF : WFGraph g) (hD : DepthOK g) (hsym : SymOK g)
    (h : g.InsertFlag lvl v = .ok (g2, false)) : SymOK g2 := by
  by_cases h1 : v.Data = []
  · simp [HNSWGraph.InsertFlag, h1] at h
  by_cases h2 : v.ID = ""
  · simp [HNSWGraph.InsertFlag, h1, h2] at h
  by_cases h3 : (alookup g.Vectors v.ID).isSome = true
  · simp [HNSWGraph.InsertFlag, h1, h2, h3] at h
  simp only [HNSWGraph.InsertFlag, h1, h2, h3, Bool.false_eq_true, if_false,
    Except.ok.injEq] at h
  set layer := if 0 < g.mL then lvl else 0 with hlayerdef
  set gx := if g.MaxLayer < layer then g.extendTo layer else g with hgxdef
  have hgxD : DepthOK gx := by
    rw [hgxdef]
    split_ifs with hext
    · exact extendTo_depth g layer
    · exact hD
  have hgxsym : SymOK gx := by
    rw [hgxdef]
    split_ifs with hext
    · exact extendTo_sym g layer hsym
    · exact hsym
  have hgxWF : WFGraph gx := by
    rw [hgxdef]
    split_ifs with hext
    · exact extendTo_WF g layer hWF
    · exact hWF
  have hgxVec : gx.Vectors = g.Vectors := by
    rw [hgxdef]
    split_ifs <;> rfl
  set gV : HNSWGraph := { gx with Vectors := aset gx.Vectors v.ID v } with hgVdef
  have hgVD : DepthOK gV := hgxD
  have hgVsym : SymOK gV := fun l u w hw => hgxsym l u w hw
  have hfresh : ∀ l, v.ID ∉ (gV.layerMap l).map Prod.fst := by
    intro l hmem
    have hvin : v.ID ∈ gx.vids := hgxWF.2.2.1.2 l v.ID hmem
    rw [HNSWGraph.vids, hgxVec] at hvin
    exact h3 ((alookup_isSome_iff g.Vectors v.ID).2 hvin)
  by_cases hep : gV.EntryPoint = ""
  · rw [if_pos hep] at h
    simp only [Except.ok.injEq, Prod.mk.injEq] at h
    obtain ⟨hg2, hfl⟩ := h
    subst hg2
    exact fun l u w hw => hgVsym l u w hw
  · rw [if_neg hep] at h
    rcases hIns : HNSWGraph.insertAtLayers v
        ((List.range (min layer gV.MaxLayer + 1)).reverse)
        (gV.descendInsert v.Data
          ((List.range' (layer + 1) (gV.MaxLayer - layer)).reverse) gV.EntryPoint)
        (gV, false) with ⟨gR, flR⟩
    rw [hIns] at h
    simp only [Except.ok.injEq, Prod.mk.injEq] at h
    obtain ⟨hg2, hfl⟩ := h
    subst hg2
    have hflR : flR = false := hfl
    subst hflR
    have hresult := insertAtLayers_sym v
      ((List.range (min layer gV.MaxLayer + 1)).reverse)
      (gV.descendInsert v.Data
        ((List.range' (layer + 1) (gV.MaxLayer - layer)).reverse) gV.EntryPoint)
      gV
      (by
        intro l hl
        rw [List.mem_reverse, List.mem_range] at hl
        have hle : l ≤ gV.MaxLayer := by omega
        exact lt_of_le_of_lt hle hgVD)
      (fun l _ => hfresh l)
      ((List.nodup_reverse).2 (List.nodup_range _))
      hgVsym
      (by rw [hIns])
    rw [hIns] at hresult
    exact hresult

theorem runInsertsFlag_sym (s : List (ℕ × Vector)) :
    ∀ g, WFGraph g → DepthOK g → CapOK g → SymOK g →
      (runInsertsFlag g s).2 = false → SymOK (runInsertsFlag g s).1 := by
  induction s with
  | nil => intro g _ _ _ hsym _; simpa [runInsertsFlag] using hsym
  | cons p rest ih =>
    intro g hWF hD hC hsym hfl
    obtain ⟨lvl, v⟩ := p
    simp only [runInsertsFlag] at hfl ⊢
    rcases hins : g.InsertFlag lvl v with e | ⟨g2, fl⟩
    · rw [hins] at hfl
      dsimp only at hfl ⊢
      exact ih g hWF hD hC hsym hfl
    · rw [hins] at hfl
      dsimp only at hfl ⊢
      rcases hrest : runInsertsFlag g2 rest with ⟨g3, fl2⟩
      rw [hrest] at hfl
      dsimp only at hfl ⊢
      have hflc : fl = false ∧ fl2 = false := by
        have := Bool.or_eq_false_iff.1 hfl
        exact this
      obtain ⟨hfla, hflb⟩ := hflc
      subst hfla
      have hWF2 := InsertFlag_WF g lvl v g2 false hWF hins
      obtain ⟨hD2, hC2⟩ := InsertFlag_depth_cap g lvl v g2 false hWF hD hC hins
      have hsym2 := InsertFlag_sym g lvl v g2 hWF hD hsym hins
      have := ih g2 hWF2 hD2 hC2 hsym2 (by rw [hrest]; exact hflb)
      rw [hrest] at this
      exact this

/-- C1 (amended): after a sequence of inserts from a fresh graph during which
no neighbor-list trim fired, edges are symmetric in every layer.  (The
unconditional claim fails: a trim drops the reverse edge, see the
counterexample.) -/
theorem insert_edges_symmetric_no_trim (m efc dt : ℤ) (s : List (ℕ × Vector))
    (h : (runInsertsFlag (NewHNSWGraph m efc dt) s).2 = false)
    (l : ℕ) (u w : String) :
    w ∈ (runInserts (NewHNSWGraph m efc dt) s).adj l u ↔
      u ∈ (runInserts (NewHNSWGraph m efc dt) s).adj l w := by
  have hs := runInsertsFlag_sym s (NewHNSWGraph m efc dt)
    (NewHNSWGraph_WF m efc dt) (NewHNSWGraph_depth m efc dt)
    (NewHNSWGraph_cap m efc dt) (NewHNSWGraph_sym m efc dt) h
  exact ⟨fun hw => hs l u w hw, fun hu => hs l w u hu⟩

set_option maxRecDepth 100000 in
/-- C1 (counterexample): four successful inserts produce an asymmetric edge:
the trim at "b" recomputes its list against "b"'s own vector and drops the
reverse edge to "a", while "a" keeps "b". -/
theorem insert_symmetry_counterexample :
    insertsAllOk (NewHNSWGraph 2 1 2) seq4 = true ∧
    "b" ∈ (runInserts (NewHNSWGraph 2 1 2) seq4).adj 0 "a" ∧
    "a" ∉ (runInserts (NewHNSWGraph 2 1 2) seq4).adj 0 "b" :=
  ⟨by with_unfolding_all decide, by with_unfolding_all decide,
    by with_unfolding_all decide⟩

set_option maxRecDepth 100000 in
/-- Witness: `seq3` triggers no trim, and its edge a-b is symmetric. -/
theorem insert_edges_symmetric_no_trim_witness :
    (runInsertsFlag (NewHNSWGraph 2 1 2) seq3).2 = false ∧
    ("b" ∈ (runInserts (NewHNSWGraph 2 1 2) seq3).adj 0 "a" ↔
      "a" ∈ (runInserts (NewHNSWGraph 2 1 2) seq3).adj 0 "b") :=
  ⟨by with_unfolding_all decide,
    insert_edges_symmetric_no_trim 2 1 2 seq3 (by with_unfolding_all decide) 0 "a" "b"⟩

set_option maxRecDepth 100000 in
/-- C2 (counterexample): an index holding 2 layer-0-reachable vectors,
searched with k = 2 and EfSearch = 1, returns a single result with no
early-stop break: |results| = min(k, indexed_count) = 2 fails, because the
layer-0 width is `EfSearch`, not `max(k, ef_search)`. -/
theorem search_cardinality_counterexample :
    (runInserts (NewHNSWGraph 2 1 2) [(0, vA), (0, vB)]).SearchFlag [0] 2
      = .ok ([vA], false) ∧
    (runInserts (NewHNSWGraph 2 1 2) [(0, vA), (0, vB)]).reachOK [0] = true ∧
    (runInserts (NewHNSWGraph 2 1 2) [(0, vA), (0, vB)]).Vectors.length = 2 ∧
    ¬((1 : ℤ) = min 2 2) :=
  ⟨by with_unfolding_all rfl, by with_unfolding_all decide,
    by with_unfolding_all decide, by with_unfolding_all decide⟩

set_option maxRecDepth 100000 in
/-- Witness: on the `seq3` index with k = 1, the search succeeds without a
break, every id is reachable, and the cardinality equation holds. -/
theorem search_cardinality_witness :
    (runInserts (NewHNSWGraph 2 1 2) seq3).SearchFlag [0] 1 = .ok ([vA], false) ∧
    ([vA].length ≤ (1 : ℤ).toNat ∧
      (false = false →
        (runInserts (NewHNSWGraph 2 1 2) seq3).reachOK [0] = true →
        (([vA].length : ℤ) = min 1 (min (runInserts (NewHNSWGraph 2 1 2) seq3).EfSearch
          ((runInserts (NewHNSWGraph 2 1 2) seq3).Vectors.length : ℤ))))) :=
  ⟨by with_unfolding_all rfl,
    search_cardinality 2 1 2 seq3 [0] 1 [vA] false (by with_unfolding_all rfl)⟩

set_option maxRecDepth 100000 in
/-- Witness: a concrete successful search whose result list is sorted. -/
theorem search_results_sorted_witness :
    (runInserts (NewHNSWGraph 2 1 2) seq3).Search [0] 2 = .ok [vA] ∧
    [vA].Pairwise (fun a b =>
      (runInserts (NewHNSWGraph 2 1 2) seq3).Distance [0] a.Data
        ≤ (runInserts (NewHNSWGraph 2 1 2) seq3).Distance [0] b.Data) :=
  ⟨by with_unfolding_all rfl,
    search_results_sorted (runInserts (NewHNSWGraph 2 1 2) seq3)
      [0] 2 [vA] (by with_unfolding_all rfl)⟩

set_option maxRecDepth 100000 in
/-- Witness: adding a duplicate of "a" through the manager succeeds; the
identity map is overwritten while the graph is unchanged. -/
theorem addVector_discards_insert_error_witness :
    alookup mgr1.databases "d" = some db1 ∧
    db1.Graph = some gr1 ∧
    ((vA.Data.length : ℤ) = db1.Config.HNSW.Dimensions) ∧
    (alookup gr1.Vectors vA.ID).isSome = true ∧
    Manager.AddVector mgr1 "d" vA 0 =
      .ok ⟨aset mgr1.databases "d"
        ({ db1 with Vectors := aset db1.Vectors vA.ID vA, Graph := some gr1 })⟩ :=
  ⟨rfl, rfl, by with_unfolding_all decide, by with_unfolding_all rfl,
    addVector_discards_insert_error mgr1 "d" db1 gr1 vA 0 rfl rfl
      (by with_unfolding_all decide) (by with_unfolding_all rfl)⟩

set_option maxRecDepth 100000 in
/-- Witness: reloading a saved database yields a nil graph. -/
theorem loadDatabase_graph_none_witness :
    LoadDatabase (SaveDatabase [] db2) "n" = .ok ⟨"n", cfg1, [("a", vA)], none⟩ ∧
    (⟨"n", cfg1, [("a", vA)], none⟩ : Database).Graph = none :=
  ⟨by with_unfolding_all rfl,
    loadDatabase_graph_none (SaveDatabase [] db2) "n" _ (by with_unfolding_all rfl)⟩

set_option maxRecDepth 100000 in
/-- C4: the code's `searchLayer` pushes a neighbor onto the frontier only
when it also enters the result set (conditional push), so on `gC4` the
neighbor "b" of the entry "a" is never explored and the optimal "c" is never
found; the spec's always-push search returns it. -/
theorem searchLayer_conditional_push_diverges :
    gC4.searchLayer [0] "a" 1 0 = ["a"] ∧
    gC4.searchLayerSpec [0] "a" 1 0 = ["c"] :=
  ⟨by with_unfolding_all rfl, by with_unfolding_all rfl⟩
